import Mathlib

/-!
# Verification of the mermaid-vibes SVG enhancement and animation pipeline

This file is a shallow embedding, in Lean 4, of the core logic of the
`truemedicine/mermaid-vibes` repository:

* the particle scheduler and animation driver
  (`src/components/MermaidRenderer/particleUtils.ts`,
  `setupParticleAnimations` in `src/components/MermaidRenderer/index.tsx`),
* the SVG structural classifier / enhancement passes
  (`enhanceSVG` and its helpers in the svg-utility module),
* the actor-image preprocessing step (`preprocessChart`, `addActorImages`
  in `src/components/MermaidRenderer/index.tsx`),
* the theming step (`applyCustomTheme` in `index.tsx`), and
* the export image-inlining fallback chain (`urlToDataUri`,
  `loadImageAsDataUri` in the export-utility module).

Modelling conventions:

* JavaScript numbers are modelled as rationals (`ℚ`); all arithmetic in the
  translated code is exact on the values the code computes, and no rounding
  behaviour of floating point is relied on by any claim proved here.
* DOM element trees are modelled by the inductive type `Elem` below; numeric
  presentation attributes (`x`, `width`, `refX`, ...) are stored in a numeric
  attribute list, and string attributes (`id`, `href`, ...) in a string
  attribute list.  `parseFloat(e.getAttribute(k) || d)` becomes a lookup with
  a default.
* Asynchronous fallible operations (fetch, image decode) are modelled by
  explicit outcome values, and promise rejection by `Except`.
-/

/-! ## Particle configuration constants (`constants.ts`, `PARTICLE_CONFIG`) -/

/-- `PARTICLE_CONFIG.particleCount` — number of particles per edge. -/
def particleCount : Nat := 1

/-- `PARTICLE_CONFIG.minDuration` in milliseconds. -/
def minDuration : ℚ := 2000

/-- `PARTICLE_CONFIG.maxDuration` in milliseconds. -/
def maxDuration : ℚ := 3500

/-- `PARTICLE_CONFIG.durationMultiplier` (milliseconds per path-length unit). -/
def durationMultiplier : ℚ := 15

/-! ## Particle scheduler (`particleUtils.ts`) -/

/-- `calculateDuration` (particleUtils.ts):
`Math.max(minDuration, Math.min(maxDuration, pathLength * durationMultiplier))`. -/
def calculateDuration (pathLength : ℚ) : ℚ :=
  max minDuration (min maxDuration (pathLength * durationMultiplier))

/-- A particle animation record (`ParticleAnimation` in `types.ts`), minus the
DOM element handles, which no scheduling computation reads. -/
structure ParticleAnimation where
  pathLength : ℚ
  duration : ℚ
  offset : ℚ
  startTime : ℚ
deriving Repr, DecidableEq

/-- `createParticlesForPath` (particleUtils.ts): for each of the
`particleCount` slots it pushes the core record and the outer-glow record
(both sharing the window of the edge), and returns the records together with
`cumulativeStartTime + duration`.  The path element is represented by its
measured total length. -/
def createParticlesForPath (pathLength : ℚ) (cumulativeStartTime : ℚ) :
    List ParticleAnimation × ℚ :=
  let duration := calculateDuration pathLength
  let animations := (List.range particleCount).foldl
    (fun acc _ =>
      acc ++
        [ { pathLength := pathLength, duration := duration, offset := 0,
            startTime := cumulativeStartTime },
          { pathLength := pathLength, duration := duration, offset := 0,
            startTime := cumulativeStartTime } ])
    []
  (animations, cumulativeStartTime + duration)

/-- The body of the `edges.forEach` loop in `setupParticleAnimations`
(index.tsx): append the records of this edge and advance the cursor. -/
def setupStep (st : List ParticleAnimation × ℚ) (len : ℚ) :
    List ParticleAnimation × ℚ :=
  let r := createParticlesForPath len st.2
  (st.1 ++ r.1, r.2)

/-- `setupParticleAnimations` (index.tsx): runs over the classified edges in
order, keeping a cumulative start-time cursor initialised to the current
time; each edge path element is represented by its measured total length. -/
def setupParticleAnimations (edgeLengths : List ℚ) (now : ℚ) :
    List ParticleAnimation :=
  (edgeLengths.foldl setupStep (([] : List ParticleAnimation), now)).1

/-- The even-index maximum loop inside `startParticleAnimation`
(particleUtils.ts): `for (let i = 0; i < animations.length; i += 2)` keeps
the largest `startTime + duration - sequenceStartTime`. -/
def maxEndEven (sequenceStartTime : ℚ) :
    List ParticleAnimation → ℚ → ℚ
  | [], acc => acc
  | [a], acc =>
      let e := a.startTime + a.duration - sequenceStartTime
      if e > acc then e else acc
  | a :: _ :: rest, acc =>
      let e := a.startTime + a.duration - sequenceStartTime
      maxEndEven sequenceStartTime rest (if e > acc then e else acc)

/-- The total sequence duration computed by `startParticleAnimation`:
`sequenceStartTime` is `animations[0].startTime` and the duration is the
even-index maximum starting from `0`. -/
def totalSequenceDuration : List ParticleAnimation → ℚ
  | [] => 0
  | a :: rest => maxEndEven a.startTime (a :: rest) 0

/-- The state captured by a running animation loop instance. -/
structure AnimationLoop where
  totalSequenceDuration : ℚ
  sequenceStartTime : ℚ
deriving Repr, DecidableEq

/-- `startParticleAnimation` (particleUtils.ts).  On an empty animation list
the source returns a no-op cleanup function without ever calling
`requestAnimationFrame` and without touching any element; this outcome is
modelled by `none`.  Otherwise it starts a frame loop driven by the captured
`sequenceStartTime` and total duration, modelled by `some`. -/
def startParticleAnimation : List ParticleAnimation → Option AnimationLoop
  | [] => none
  | a :: rest =>
      some { totalSequenceDuration := maxEndEven a.startTime (a :: rest) 0,
             sequenceStartTime := a.startTime }

/-! ## Animation driver (`particleUtils.ts`) -/

/-- `easeInOutCubic` (particleUtils.ts). -/
def easeInOutCubic (t : ℚ) : ℚ :=
  if t < 1 / 2 then 4 * t * t * t
  else 1 - (-2 * t + 2) ^ 3 / 2

/-- `calculateOpacity` (particleUtils.ts): trapezoid fade, ramp up on
`[0, 0.15]`, full opacity on `[0.15, 0.85]`, ramp down on `[0.85, 1]`. -/
def calculateOpacity (progress : ℚ) : ℚ :=
  let fadeInEnd : ℚ := 15 / 100
  let fadeOutStart : ℚ := 85 / 100
  if progress < fadeInEnd then progress / fadeInEnd
  else if progress > fadeOutStart then (1 - progress) / (1 - fadeOutStart)
  else 1

/-- Truncation toward zero, as used by the JavaScript `%` operator. -/
def ratTrunc (q : ℚ) : ℤ := if 0 ≤ q then ⌊q⌋ else ⌈q⌉

/-- The JavaScript remainder operator `a % b` on numbers. -/
def jsMod (a b : ℚ) : ℚ := a - b * (ratTrunc (a / b) : ℚ)

/-- The attributes of a particle circle element written by the driver. -/
structure ElemState where
  cx : ℚ
  cy : ℚ
  opacity : ℚ
deriving Repr, DecidableEq

/-- `updateParticlePosition` (particleUtils.ts), as a pure state transition on
the particle element and its glow companion.  `pointAtLength` stands for
`path.getPointAtLength`; `none` models the call throwing (the source catches
and skips silently).  `glowIsElement` models the reference identity test
`animation.glowElement !== animation.element`. -/
def updateParticlePosition (animation : ParticleAnimation)
    (pointAtLength : ℚ → Option (ℚ × ℚ))
    (currentTime : ℚ) (isCore : Bool) (glowIsElement : Bool)
    (totalSequenceDuration sequenceStartTime : ℚ)
    (el glow : ElemState) : ElemState × ElemState :=
  let timeSinceSequenceStart := currentTime - sequenceStartTime
  let cycleTime := jsMod timeSinceSequenceStart totalSequenceDuration
  let particleStartInSequence := animation.startTime - sequenceStartTime
  let particleEndInSequence := particleStartInSequence + animation.duration
  if particleStartInSequence ≤ cycleTime ∧ cycleTime < particleEndInSequence
  then
    let progressInParticle :=
      (cycleTime - particleStartInSequence) / animation.duration
    let easedProgress := easeInOutCubic progressInParticle
    let distance := easedProgress * animation.pathLength
    let opacity := calculateOpacity progressInParticle
    match pointAtLength distance with
    | none => (el, glow)
    | some p =>
        let el2 : ElemState := { cx := p.1, cy := p.2, opacity := opacity }
        let glow2 :=
          if isCore ∧ ¬ glowIsElement
          then ({ cx := p.1, cy := p.2, opacity := opacity } : ElemState)
          else glow
        (el2, glow2)
  else
    let el2 := { el with opacity := 0 }
    let glow2 :=
      if isCore ∧ ¬ glowIsElement
      then { glow with opacity := 0 }
      else glow
    (el2, glow2)

/-! ## Closed forms used by the proofs about the scheduler -/

/-- Closed form of `setupParticleAnimations`: the two records pushed per edge,
with the cumulative cursor advanced by each duration. -/
def chainAnimations : List ℚ → ℚ → List ParticleAnimation
  | [], _ => []
  | l :: ls, t =>
      let d := calculateDuration l
      { pathLength := l, duration := d, offset := 0, startTime := t } ::
      { pathLength := l, duration := d, offset := 0, startTime := t } ::
      chainAnimations ls (t + d)

/-- The even-indexed (core) records of an animation list. -/
def coreAnimations : List ParticleAnimation → List ParticleAnimation
  | [] => []
  | [a] => [a]
  | a :: _ :: rest => a :: coreAnimations rest

/-- One core record per edge, chained. -/
def chainCores : List ℚ → ℚ → List ParticleAnimation
  | [], _ => []
  | l :: ls, t =>
      let d := calculateDuration l
      { pathLength := l, duration := d, offset := 0, startTime := t } ::
      chainCores ls (t + d)

/-! ## Theming (`applyCustomTheme` in index.tsx)

The custom theme is a sparse record; each present field contributes a group
of CSS rules.  A rule is modelled structurally as selector list, property and
value (every generated rule carries `!important` in the source, so that flag
is not modelled separately).  The graphic instance is represented by the list
of style blocks appended to the svg element, in document order. -/

/-- `CustomTheme` (types.ts): sparse visual override record. -/
structure CustomTheme where
  primaryColor : Option String := none
  secondaryColor : Option String := none
  backgroundColor : Option String := none
  textColor : Option String := none
  particleColor : Option String := none
  strokeWidth : Option ℚ := none
  fontSize : Option ℚ := none
deriving Repr, DecidableEq

/-- One generated CSS rule: selector group, property, value. -/
structure CssRule where
  selectors : String
  property : String
  value : String
deriving Repr, DecidableEq

/-- The `customStyles` string built by `applyCustomTheme` (index.tsx),
modelled as the list of rules in generation order. -/
def themeStyles (theme : CustomTheme) : List CssRule :=
  (match theme.primaryColor with
   | some c =>
      [ { selectors := ".animated-node", property := "stroke", value := c },
        { selectors := ".animated-edge", property := "stroke", value := c },
        { selectors := ".actor", property := "stroke", value := c },
        { selectors := ".messageLine0, .messageLine1", property := "stroke",
          value := c } ]
   | none => []) ++
  (match theme.strokeWidth with
   | some w =>
      [ { selectors := ".animated-node", property := "stroke-width",
          value := toString w },
        { selectors := ".animated-edge", property := "stroke-width",
          value := toString w } ]
   | none => []) ++
  (match theme.textColor with
   | some c =>
      [ { selectors := ".nodeLabel, .edgeLabel, .actor text, .messageText",
          property := "fill", value := c } ]
   | none => []) ++
  (match theme.fontSize with
   | some s =>
      [ { selectors := ".nodeLabel, .edgeLabel text, .actor text",
          property := "font-size", value := toString s ++ "px" } ]
   | none => [])

/-- `applyCustomTheme` (index.tsx): with no theme it does nothing; otherwise
it builds a fresh style element with the generated rules and, when the rule
text is non-empty, appends it to the svg element.  Nothing is ever removed
from the existing style blocks. -/
def applyCustomTheme (theme : Option CustomTheme)
    (styleBlocks : List (List CssRule)) : List (List CssRule) :=
  match theme with
  | none => styleBlocks
  | some th =>
      let customStyles := themeStyles th
      if customStyles.isEmpty then styleBlocks
      else styleBlocks ++ [ customStyles ]

/-! ## Export image inlining (`urlToDataUri`, `loadImageAsDataUri`,
`inlineStyles` in the export-utility module)

The network and image-decoding environment is made explicit: a fetch either
yields blob data or is blocked (CORS), and the image-element re-render either
yields a data URI or fails.  Promise rejection is `Except.error`. -/

/-- Outcome of the cors-mode fetch followed by reading the blob. -/
inductive FetchOutcome where
  | ok (blobData : String)
  | blocked (err : String)
deriving Repr, DecidableEq

/-- Outcome of loading the url into an `Image` element and drawing it onto a
canvas (`loadImageAsDataUri`): either the produced data URI, or a failure
(load error, canvas context unavailable, or tainted-canvas `toDataURL`). -/
inductive ImgLoadOutcome where
  | ok (dataUri : String)
  | fail (err : String)
deriving Repr, DecidableEq

/-- `FileReader.readAsDataURL` on a fetched blob (abstract exact encoding). -/
def readAsDataURL (blobData : String) : String :=
  "data:;base64," ++ blobData

/-- The fixed 1x1 transparent PNG placeholder in `urlToDataUri`. -/
def transparentPixelDataUri : String :=
  "data:image/png;base64,iVBORw0KGgoAAAANSUhEUgAAAAEAAAABCAYAAAAfFcSJAAAADUlEQVR42mNk+M9QDwADhgGAWjR9awAAAABJRU5ErkJggg=="

/-- The `try` block of `urlToDataUri`: fetch then read as data URI. -/
def fetchAsDataUri : FetchOutcome → Except String String
  | .ok blobData => .ok (readAsDataURL blobData)
  | .blocked err => .error err

/-- `loadImageAsDataUri` (export utilities): image-element re-render. -/
def loadImageAsDataUri : ImgLoadOutcome → Except String String
  | .ok dataUri => .ok dataUri
  | .fail err => .error err

/-- `urlToDataUri` (export utilities): direct fetch, then the image-element
fallback, then the fixed transparent placeholder. -/
def urlToDataUri (_url : String) (fetch : FetchOutcome)
    (imgLoad : ImgLoadOutcome) : Except String String :=
  match fetchAsDataUri fetch with
  | .ok s => .ok s
  | .error _ =>
      match loadImageAsDataUri imgLoad with
      | .ok s => .ok s
      | .error _ => .ok transparentPixelDataUri

/-- The image-inlining loop of `inlineStyles`: every image whose `href`
starts with `http` is replaced by the `urlToDataUri` result; the export
awaits all of them (`Promise.all`), which rejects iff one of them rejects —
modelled by sequential propagation of the first error. -/
def inlineImageHrefs :
    List (String × FetchOutcome × ImgLoadOutcome) → Except String (List String)
  | [] => .ok []
  | img :: rest =>
      match (if img.1.startsWith "http"
             then urlToDataUri img.1 img.2.1 img.2.2
             else .ok img.1) with
      | .error e => .error e
      | .ok href =>
          match inlineImageHrefs rest with
          | .error e => .error e
          | .ok others => .ok (href :: others)


/-! ## DOM model

An element is a tag, a class-list, string attributes, numeric presentation
attributes and its own text, together with a list of children.  Numeric
attributes model the source pattern `parseFloat(e.getAttribute(k) || dflt)`
as a lookup with a default; `setAttribute(k, v.toString())` becomes an
in-place association-list update.  Tags are stored lowercase (as the SVG DOM
reports them). -/

/-- The data of one element, excluding its children. -/
structure NodeData where
  tag : String := ""
  classes : List String := []
  sattrs : List (String × String) := []
  nattrs : List (String × ℚ) := []
  text : String := ""
deriving Repr, DecidableEq

/-- An element tree. -/
inductive Elem where
  | mk (data : NodeData) (children : List Elem)

/-- The data of an element. -/
def Elem.data : Elem → NodeData
  | .mk d _ => d

/-- The children of an element. -/
def Elem.children : Elem → List Elem
  | .mk _ ch => ch

/-- Association-list update used by `setAttribute`: replace in place, or
append when the key is absent. -/
def upsertN : List (String × ℚ) → String → ℚ → List (String × ℚ)
  | [], k, v => [ (k, v) ]
  | (k0, v0) :: rest, k, v =>
      if k0 == k then (k0, v) :: rest else (k0, v0) :: upsertN rest k v

/-- `getAttribute` for a numeric attribute. -/
def getN (d : NodeData) (k : String) : Option ℚ :=
  (d.nattrs.find? (fun p => p.1 == k)).map (fun p => p.2)

/-- `parseFloat(e.getAttribute(k) || dflt)`. -/
def getND (d : NodeData) (k : String) (dflt : ℚ) : ℚ :=
  (getN d k).getD dflt

/-- `setAttribute` for a numeric attribute. -/
def setN (d : NodeData) (k : String) (v : ℚ) : NodeData :=
  { d with nattrs := upsertN d.nattrs k v }

/-- `getAttribute` for a string attribute. -/
def getS (d : NodeData) (k : String) : Option String :=
  (d.sattrs.find? (fun p => p.1 == k)).map (fun p => p.2)

/-- `classList.add`: appends the token unless already present. -/
def addClass (d : NodeData) (c : String) : NodeData :=
  if c ∈ d.classes then d else { d with classes := d.classes ++ [ c ] }

/-- Bool-valued list-prefix test. -/
def listIsPrefixOfB [BEq α] : List α → List α → Bool
  | [], _ => true
  | _ :: _, [] => false
  | a :: as, b :: bs => a == b && listIsPrefixOfB as bs

/-- Bool-valued contiguous-sublist test (haystack first). -/
def listContainsSub [BEq α] : List α → List α → Bool
  | [], needle => needle.isEmpty
  | hd :: rest, needle =>
      listIsPrefixOfB needle (hd :: rest) || listContainsSub rest needle

/-- `String.includes` of JavaScript. -/
def strIncludes (hay needle : String) : Bool :=
  listContainsSub hay.toList needle.toList

/-! ### CSS selectors

Only the selector forms appearing in `MERMAID_SELECTORS` are modelled:
a class, two classes on one element, a tag, a tag with a class, and a tag
under an ancestor carrying a class (descendant combinator). -/

/-- The selector forms used by the classifier. -/
inductive Sel where
  | cls (c : String)
  | cls2 (c d : String)
  | tag (t : String)
  | tagCls (t c : String)
  | underClsTag (c t : String)
deriving Repr, DecidableEq

/-- Does an element with data `d` and (outermost-first) ancestor data `anc`
match the selector? -/
def selMatch (anc : List NodeData) (d : NodeData) : Sel → Bool
  | .cls c => d.classes.contains c
  | .cls2 c c2 => d.classes.contains c && d.classes.contains c2
  | .tag t => d.tag == t
  | .tagCls t c => d.tag == t && d.classes.contains c
  | .underClsTag c t => d.tag == t && anc.any (fun a => a.classes.contains c)

/-- Match against a comma-separated selector group. -/
def selsMatch (sels : List Sel) (anc : List NodeData) (d : NodeData) : Bool :=
  sels.any (selMatch anc d)

/-- `MERMAID_SELECTORS.nodes` (constants.ts). -/
def nodesSelectors : List Sel :=
  [ .underClsTag "node" "rect", .underClsTag "node" "polygon",
    .underClsTag "node" "circle", .underClsTag "node" "ellipse" ]

/-- `MERMAID_SELECTORS.nodeLabels`. -/
def nodeLabelsSelectors : List Sel := [ .cls "nodeLabel" ]

/-- `MERMAID_SELECTORS.edgeLabels`. -/
def edgeLabelsSelectors : List Sel := [ .cls "edgeLabel" ]

/-- `MERMAID_SELECTORS.edgeLabelRects`. -/
def edgeLabelRectsSelectors : List Sel := [ .underClsTag "edgeLabel" "rect" ]

/-- `MERMAID_SELECTORS.edges`, in priority order. -/
def edgesSelectors : List (List Sel) :=
  [ [ .cls "flowchart-link" ],
    [ .cls "messageLine0" ],
    [ .cls "messageLine1" ],
    [ .cls2 "messageLine0" "dashed" ],
    [ .cls2 "messageLine1" "dashed" ],
    [ .underClsTag "edgePath" "path" ],
    [ .tagCls "path" "edge" ],
    [ .tagCls "path" "relation" ] ]

/-! ### querySelectorAll

`qsaPos sels root` lists, in document (pre-)order, the positions (paths of
child indices) of the proper descendants of `root` that match the selector
group.  The root element itself is never matched, exactly as
`root.querySelectorAll` never returns `root`. -/

mutual
/-- Generic position collector over a context predicate, document order;
the predicate sees the data of the element and of all its ancestors. -/
def collectElem (p : List NodeData → NodeData → Bool)
    (anc : List NodeData) (pos : List Nat) : Elem → List (List Nat)
  | .mk d ch =>
      (if p anc d then [ pos ] else []) ++
        collectChildren p (anc ++ [ d ]) pos 0 ch
def collectChildren (p : List NodeData → NodeData → Bool)
    (anc : List NodeData) (pos : List Nat) (i : Nat) :
    List Elem → List (List Nat)
  | [] => []
  | e :: es =>
      collectElem p anc (pos ++ [ i ]) e ++ collectChildren p anc pos (i + 1) es
end

/-- Generic position collector from the root (proper descendants only). -/
def collectPos (p : List NodeData → NodeData → Bool) : Elem → List (List Nat)
  | .mk d ch => collectChildren p [ d ] [] 0 ch

/-- `root.querySelectorAll(sels)` as positions in document order. -/
def qsaPos (sels : List Sel) : Elem → List (List Nat) :=
  collectPos (selsMatch sels)

mutual
/-- The element at a position. -/
def elemAt : Elem → List Nat → Option Elem
  | e, [] => some e
  | .mk _ ch, i :: rest => elemAtChildren ch i rest
def elemAtChildren : List Elem → Nat → List Nat → Option Elem
  | [], _, _ => none
  | c :: _, 0, rest => elemAt c rest
  | _ :: cs, i + 1, rest => elemAtChildren cs i rest
end

/-! ### Enhancement passes (svg utilities)

Each pass of the structural classifier visits every matched element and
rewrites its local data.  In the DOM the matches are snapshotted before the
loop; since no action of any pass changes an observation any selector reads
(tags never change, and only the marker classes `animated-node`,
`animated-label`, `animated-edge` are ever added, none of which occurs in a
selector), applying the action during a single traversal is equivalent. -/

/-- A classifier pass: a selector group and a per-element action. -/
structure EnhancePass where
  sels : List Sel
  act : NodeData → NodeData

mutual
def mapPassElem (P : EnhancePass) (anc : List NodeData) : Elem → Elem
  | .mk d ch =>
      let d2 := if selsMatch P.sels anc d then P.act d else d
      .mk d2 (mapPassChildren P (anc ++ [ d2 ]) ch)
def mapPassChildren (P : EnhancePass) (anc : List NodeData) :
    List Elem → List Elem
  | [] => []
  | e :: es => mapPassElem P anc e :: mapPassChildren P anc es
end

/-- Run a pass over the proper descendants of the root. -/
def runPass (P : EnhancePass) : Elem → Elem
  | .mk d ch => .mk d (mapPassChildren P [ d ] ch)

/-- The per-node action of `enhanceNodes` (svg utilities): tag with
`animated-node` and round the corners of rectangles. -/
def enhanceNodesAct (d : NodeData) : NodeData :=
  let d2 := addClass d "animated-node"
  if d2.tag == "rect" then setN (setN d2 "rx" 10) "ry" 10 else d2

/-- `enhanceNodes`. -/
def enhanceNodes : Elem → Elem :=
  runPass { sels := nodesSelectors, act := enhanceNodesAct }

/-- The per-label action of `enhanceLabels`. -/
def labelAct (d : NodeData) : NodeData := addClass d "animated-label"

/-- `enhanceLabels` (svg utilities): node labels and edge labels both get
`animated-label`.  The source iterates the two query results one after the
other; since the action is per-element, one traversal over the union of the
two selector groups produces the same tree. -/
def enhanceLabels : Elem → Elem :=
  runPass { sels := nodeLabelsSelectors ++ edgeLabelsSelectors,
            act := labelAct }

/-- `EDGE_LABEL_MIN_SIZE` (constants.ts). -/
def edgeLabelMinWidth : ℚ := 90

/-- `EDGE_LABEL_MIN_SIZE.height`. -/
def edgeLabelMinHeight : ℚ := 50

/-- `EDGE_LABEL_MIN_SIZE.borderRadius`. -/
def edgeLabelBorderRadius : ℚ := 12

/-- The per-rect action of `enhanceEdgeLabelBoxes` (svg utilities): enforce
padded minimum width and height, recentring on enlargement, and set the
corner radii. -/
def edgeLabelBoxAct (d : NodeData) : NodeData :=
  let width := getND d "width" 0
  let height := getND d "height" 0
  let paddedMinWidth := edgeLabelMinWidth + 20
  let paddedMinHeight := edgeLabelMinHeight + 10
  let newWidth := max width paddedMinWidth
  let d2 :=
    if newWidth ≠ width then
      let dw := setN d "width" newWidth
      let x := getND dw "x" 0
      setN dw "x" (x - (newWidth - width) / 2)
    else d
  let newHeight := max height paddedMinHeight
  let d3 :=
    if newHeight ≠ height then
      let dh := setN d2 "height" newHeight
      let y := getND dh "y" 0
      setN dh "y" (y - (newHeight - height) / 2)
    else d2
  setN (setN d3 "rx" edgeLabelBorderRadius) "ry" edgeLabelBorderRadius

/-- `enhanceEdgeLabelBoxes`. -/
def enhanceEdgeLabelBoxes : Elem → Elem :=
  runPass { sels := edgeLabelRectsSelectors, act := edgeLabelBoxAct }

mutual
/-- All `path` descendants together with the data of their immediate parent
(the root counts as parent of its direct children), in document order;
feeds the `findEdgePaths` fallback filter. -/
def pathsWithParentElem (parent : NodeData) (pos : List Nat) :
    Elem → List (List Nat × NodeData)
  | .mk d ch =>
      (if d.tag == "path" then [ (pos, parent) ] else []) ++
        pathsWithParentChildren d pos 0 ch
def pathsWithParentChildren (d : NodeData) (pos : List Nat) (i : Nat) :
    List Elem → List (List Nat × NodeData)
  | [] => []
  | e :: es =>
      pathsWithParentElem d (pos ++ [ i ]) e ++
        pathsWithParentChildren d pos (i + 1) es
end

/-- All `path` positions with parent data. -/
def pathsWithParent : Elem → List (List Nat × NodeData)
  | .mk d ch => pathsWithParentChildren d [] 0 ch

/-- The fallback filter of `findEdgePaths` (svg utilities): keep paths whose
immediate parent neither carries class `node` nor is a `marker`. -/
def fallbackParentOk (parent : NodeData) : Bool :=
  !(parent.classes.contains "node") && parent.tag != "marker"

/-- `findEdgePaths` (svg utilities): try each edge selector group in priority
order and return the first non-empty result; otherwise fall back to every
path whose immediate parent is neither a `node`-classed container nor a
`marker`. -/
def findEdgePathsPos (root : Elem) : List (List Nat) :=
  match edgesSelectors.find? (fun sels => !(qsaPos sels root).isEmpty) with
  | some sels => qsaPos sels root
  | none =>
      ((pathsWithParent root).filter (fun pr => fallbackParentOk pr.2)).map
        (fun pr => pr.1)

mutual
/-- Apply a data rewrite at one position (identity when out of range). -/
def modifyAt (f : NodeData → NodeData) : Elem → List Nat → Elem
  | .mk d ch, [] => .mk (f d) ch
  | .mk d ch, i :: rest => .mk d (modifyAtChildren f ch i rest)
def modifyAtChildren (f : NodeData → NodeData) :
    List Elem → Nat → List Nat → List Elem
  | [], _, _ => []
  | c :: cs, 0, rest => modifyAt f c rest :: cs
  | c :: cs, i + 1, rest => c :: modifyAtChildren f cs i rest
end

/-- The per-edge action of `enhanceEdges`. -/
def edgeTagAct (d : NodeData) : NodeData := addClass d "animated-edge"

/-- Apply a data rewrite at each of a list of positions in turn. -/
def applyAtPositions (f : NodeData → NodeData) (root : Elem)
    (posns : List (List Nat)) : Elem :=
  posns.foldl (fun t p => modifyAt f t p) root

/-- `enhanceEdges` (svg utilities): classify the edges, tag each with
`animated-edge`, and return both the updated tree and the edge positions. -/
def enhanceEdges (root : Elem) : Elem × List (List Nat) :=
  let edges := findEdgePathsPos root
  (applyAtPositions edgeTagAct root edges, edges)

/-- The per-marker action of `fixArrowMarkers` (svg utilities): markers whose
id suggests an arrowhead get their `refX` pulled back by 2.5 units. -/
def fixArrowMarkerAct (d : NodeData) : NodeData :=
  match getS d "id" with
  | none => d
  | some id =>
      if strIncludes id "arrowhead" || strIncludes id "flowchart"
          || strIncludes id "arrow" then
        let currentRefX := getND d "refX" 5
        setN d "refX" (currentRefX - 5 / 2)
      else d

/-- `fixArrowMarkers`. -/
def fixArrowMarkers : Elem → Elem :=
  runPass { sels := [ .tag "marker" ], act := fixArrowMarkerAct }

/-- The particle layer group created by `createParticleLayer`. -/
def particleLayerElem : Elem :=
  .mk { tag := "g", classes := [ "particle-layer" ] } []

/-- `createParticleLayer` (svg utilities): append the layer group to the svg
element so the particles render on top. -/
def createParticleLayer : Elem → Elem
  | .mk d ch => .mk d (ch ++ [ particleLayerElem ])

/-- `configureSVGRendering` (svg utilities) only removes the inline
`overflow` style property, which is outside the attribute model; here it is
the identity. -/
def configureSVGRendering (svg : Elem) : Elem := svg

/-- `enhanceSVG` (svg utilities): the full enhancement pipeline, returning
the updated tree and the classified edge positions. -/
def enhanceSVG (svg : Elem) : Elem × List (List Nat) :=
  let svg1 := configureSVGRendering svg
  let svg2 := enhanceNodes svg1
  let svg3 := enhanceLabels svg2
  let svg4 := enhanceEdgeLabelBoxes svg3
  let r := enhanceEdges svg4
  let svg5 := fixArrowMarkers r.1
  let svg6 := createParticleLayer svg5
  (svg6, r.2)

/-! ### The fallback set described by the specification (for C8)

Modelled from the spec: "every path not inside a node container and not
inside a connector-marker definition" — i.e. paths none of whose ancestors
(at any depth) carries class `node` or is a `marker`.  This definition
follows the words of the spec and is compared against `findEdgePathsPos`. -/

mutual
def specEdgeFallbackElem (insideNode insideMarker : Bool) (pos : List Nat) :
    Elem → List (List Nat)
  | .mk d ch =>
      (if d.tag == "path" && !insideNode && !insideMarker
       then [ pos ] else []) ++
        specEdgeFallbackChildren (insideNode || d.classes.contains "node")
          (insideMarker || d.tag == "marker") pos 0 ch
def specEdgeFallbackChildren (insideNode insideMarker : Bool)
    (pos : List Nat) (i : Nat) : List Elem → List (List Nat)
  | [] => []
  | e :: es =>
      specEdgeFallbackElem insideNode insideMarker (pos ++ [ i ]) e ++
        specEdgeFallbackChildren insideNode insideMarker pos (i + 1) es
end

/-- The spec fallback set: positions of paths (proper descendants) not
inside a `node`-classed container and not inside a `marker`. -/
def specEdgeFallback : Elem → List (List Nat)
  | .mk d ch =>
      specEdgeFallbackChildren (d.classes.contains "node")
        (d.tag == "marker") [] 0 ch

/-- A graphic tree with one path nested one level inside a marker
definition, matched by no edge selector: the concrete tree separating
`findEdgePathsPos` from the spec described set. -/
def markerNestTree : Elem :=
  .mk { tag := "svg" }
    [ .mk { tag := "marker" }
        [ .mk { tag := "g" }
            [ .mk { tag := "path" } [] ] ] ]


/-! ### Infrastructure for the idempotence analysis (C4)

The classifier passes only ever add the marker classes
`animated-node` / `animated-label` / `animated-edge` and rewrite numeric
attributes; no selector mentions a marker class, so matching is invariant
across passes.  `ObsEq` captures equality of the observations any selector
can make (tag, membership of non-marker classes), `mapAll` is a generic
context-passing traversal, and `collectPos` a generic position collector;
the passes are bridged to them in the theorems below. -/

/-- The classes added by the classifier passes. -/
def addedClasses : List String :=
  [ "animated-node", "animated-label", "animated-edge" ]

/-- Equality of selector-relevant observations. -/
def ObsEq (d d2 : NodeData) : Prop :=
  d.tag = d2.tag ∧
    ∀ c, c ∉ addedClasses → (c ∈ d.classes ↔ c ∈ d2.classes)

/-- Pointwise `ObsEq` on ancestor stacks. -/
def ObsEqL (anc anc2 : List NodeData) : Prop :=
  List.Forall₂ ObsEq anc anc2

/-- The class names a selector tests. -/
def Sel.classList : Sel → List String
  | .cls c => [ c ]
  | .cls2 c d => [ c, d ]
  | .tag _ => []
  | .tagCls _ c => [ c ]
  | .underClsTag c _ => [ c ]

/-- A selector that mentions no marker class. -/
def SelOk (sel : Sel) : Prop :=
  ∀ c ∈ sel.classList, c ∉ addedClasses

/-- A selector group that mentions no marker class. -/
def SelsOk (sels : List Sel) : Prop := ∀ sel ∈ sels, SelOk sel

/-- An action that preserves all selector-relevant observations. -/
def ActObs (f : NodeData → NodeData) : Prop := ∀ d, ObsEq (f d) d

/-- A context predicate that only reads selector-relevant observations. -/
def PredBlind (p : List NodeData → NodeData → Bool) : Prop :=
  ∀ anc anc2 d d2, ObsEqL anc anc2 → ObsEq d d2 → p anc d = p anc2 d2

/-- A context rewrite whose result does not depend on the stack beyond
selector-relevant observations. -/
def StackBlind (F : List NodeData → NodeData → NodeData) : Prop :=
  ∀ anc anc2 d, ObsEqL anc anc2 → F anc d = F anc2 d

mutual
/-- Generic traversal: rewrite every node from its data and the data of its
ancestors (original, untransformed data pushed on the stack). -/
def mapAllElem (F : List NodeData → NodeData → NodeData)
    (anc : List NodeData) : Elem → Elem
  | .mk d ch => .mk (F anc d) (mapAllChildren F (anc ++ [ d ]) ch)
def mapAllChildren (F : List NodeData → NodeData → NodeData)
    (anc : List NodeData) : List Elem → List Elem
  | [] => []
  | e :: es => mapAllElem F anc e :: mapAllChildren F anc es
end

/-- Generic traversal from the root (root data untouched). -/
def mapAll (F : List NodeData → NodeData → NodeData) : Elem → Elem
  | .mk d ch => .mk d (mapAllChildren F [ d ] ch)

/-- The context rewrite performed by one classifier pass. -/
def condAct (P : EnhancePass) : List NodeData → NodeData → NodeData :=
  fun anc d => if selsMatch P.sels anc d then P.act d else d

/-- The fallback condition of `findEdgePaths` as a context predicate: a path
whose immediate parent (the last stack entry) passes the parent filter. -/
def edgeFallbackPred (anc : List NodeData) (d : NodeData) : Bool :=
  d.tag == "path" &&
    (match anc.getLast? with
     | some parent => fallbackParentOk parent
     | none => true)

/-- Conditional application, used to state per-node composite actions. -/
def applyIf (b : Bool) (f : NodeData → NodeData) (d : NodeData) : NodeData :=
  if b then f d else d

/-- The `refX` values of all markers, in document order (for C4). -/
def markerRefXs (root : Elem) : List ℚ :=
  (qsaPos [ .tag "marker" ] root).filterMap
    (fun p => (elemAt root p).bind (fun e => getN e.data "refX"))

/-- How many particle layers the tree holds (for C4). -/
def particleLayerCount (root : Elem) : Nat :=
  (qsaPos [ .cls "particle-layer" ] root).length

/-- A minimal graphic with one arrowhead marker (refX 10), one node and one
labelled edge: the concrete input exhibiting non-idempotence of the
classifier (for C4). -/
def arrowTree : Elem :=
  .mk { tag := "svg" }
    [ .mk { tag := "marker", sattrs := [ ("id", "arrowhead-1") ],
            nattrs := [ ("refX", 10) ] } [],
      .mk { tag := "g", classes := [ "node" ] }
        [ .mk { tag := "rect", nattrs := [ ("width", 40) ] } [] ],
      .mk { tag := "path", classes := [ "flowchart-link" ] } [] ]

/-- The combined per-node rewrite performed by the three tagging passes
(nodes, labels, edge label boxes) in one traversal. -/
def tagPasses : List NodeData → NodeData → NodeData :=
  fun anc d =>
    condAct (EnhancePass.mk edgeLabelRectsSelectors edgeLabelBoxAct) anc
      (condAct (EnhancePass.mk (nodeLabelsSelectors ++ edgeLabelsSelectors)
          labelAct) anc
        (condAct (EnhancePass.mk nodesSelectors enhanceNodesAct) anc d))

/-- The combined per-node rewrite of one full classifier run, given the
branch predicate of the edge classification in force (one edge selector
group, or the fallback parent filter). -/
def runStep (pE : List NodeData → NodeData → Bool) :
    List NodeData → NodeData → NodeData :=
  fun anc d =>
    condAct (EnhancePass.mk [ Sel.tag "marker" ] fixArrowMarkerAct) anc
      (if pE anc (tagPasses anc d) then edgeTagAct (tagPasses anc d)
       else tagPasses anc d)

/-! ### Participant image preprocessing (C7)

`preprocessChart` (index.tsx) rewrites every occurrence of the pattern
`participant\s+img:([^\s]+)\s+([^\n]+)` (a JavaScript global regex replace)
to `participant $2`, recording `trim($2) -> $1` in an insertion-ordered
map.  The scanner below reproduces the left-to-right semantics of
`String.replace` with a global regex: at each index the pattern is tried;
on a match the replacement is emitted and scanning resumes after the match,
otherwise one character is copied.  The only backtracking point of this
pattern is the second `\s+` against the following `[^\n]+`, reproduced by
`giveBackScan`.  Recursion is by a character-count fuel, which never runs
out because every step consumes at least one character. -/

/-- JavaScript regex `\s` on the ASCII range. -/
def isWs (c : Char) : Bool :=
  c == ' ' || c == '\t' || c == '\n' || c == '\r'
    || c == '\x0b' || c == '\x0c'

/-- `String.trim` of JavaScript. -/
def trimWs (cs : List Char) : List Char :=
  ((cs.dropWhile isWs).reverse.dropWhile isWs).reverse

/-- `Map.set`: update in place when the key exists (keeping its position),
append otherwise. -/
def mapSet (m : List (List Char × List Char)) (k v : List Char) :
    List (List Char × List Char) :=
  match m with
  | [] => [ (k, v) ]
  | (k2, v2) :: rest =>
      if k2 == k then (k2, v) :: rest else (k2, v2) :: mapSet rest k v

/-- `Map.get`. -/
def mapGet (m : List (List Char × List Char)) (k : List Char) :
    Option (List Char) :=
  (m.find? (fun p => p.1 == k)).map (fun p => p.2)

/-- Maximal run of characters satisfying a predicate, with the remainder. -/
def spanB (p : Char → Bool) : List Char → List Char × List Char
  | [] => ([], [])
  | c :: cs =>
      if p c then
        let r := spanB p cs
        (c :: r.1, r.2)
      else ([], c :: cs)

/-- Consume an exact literal. -/
def stripLit : List Char → List Char → Option (List Char)
  | [], cs => some cs
  | _ :: _, [] => none
  | p :: ps, c :: cs => if c == p then stripLit ps cs else none

/-- `[^\n]+` (greedy, at least one character). -/
def nameAt (rest : List Char) : Option (List Char × List Char) :=
  match rest with
  | [] => none
  | c :: _ =>
      if c == '\n' then none
      else some (spanB (fun c2 => !(c2 == '\n')) rest)

/-- Backtracking of the second `\s+` against `[^\n]+`: give trailing
whitespace characters (reversed first argument) back to the name capture,
one at a time, keeping at least one for `\s+`. -/
def giveBackScan : List Char → List Char → Option (List Char × List Char)
  | wrev, rest =>
      match nameAt rest with
      | some p => some p
      | none =>
          match wrev with
          | [] => none
          | [ _ ] => none
          | c :: wrev2 => giveBackScan wrev2 (c :: rest)

/-- Try the participant-image pattern at the head of the input; on success
return the locator capture, the display-name capture and the remainder of
the input after the match. -/
def matchParticipant (cs : List Char) :
    Option (List Char × List Char × List Char) :=
  match stripLit "participant".toList cs with
  | none => none
  | some r0 =>
      let s1 := spanB isWs r0
      if s1.1.isEmpty then none
      else
        match stripLit "img:".toList s1.2 with
        | none => none
        | some r2 =>
            let s2 := spanB (fun c => !(isWs c)) r2
            if s2.1.isEmpty then none
            else
              let s3 := spanB isWs s2.2
              if s3.1.isEmpty then none
              else
                match giveBackScan s3.1.reverse s3.2 with
                | none => none
                | some (nm, rest) => some (s2.1, nm, rest)

/-- The global-replace scan: emit `participant $2` at each match and record
the mapping, copy one character otherwise. -/
def scanAux : Nat → List Char → List (List Char × List Char) →
    List Char × List (List Char × List Char)
  | 0, cs, m => (cs, m)
  | _ + 1, [], m => ([], m)
  | fuel + 1, c :: cs, m =>
      match matchParticipant (c :: cs) with
      | some (loc, nm, rest) =>
          let r := scanAux fuel rest (mapSet m (trimWs nm) loc)
          ("participant ".toList ++ nm ++ r.1, r.2)
      | none =>
          let r := scanAux fuel cs m
          (c :: r.1, r.2)

/-- `preprocessChart` (index.tsx): cleaned source and image mapping. -/
def preprocessChart (chart : List Char) :
    List Char × List (List Char × List Char) :=
  scanAux chart.length chart []

/-! ### Line-structured sources for the general C7 statement -/

/-- A source line: a participant-image declaration, or any other text. -/
inductive SrcLine where
  | decl (loc nm : List Char)
  | other (s : List Char)

/-- The raw text of one line. -/
def lineText : SrcLine → List Char
  | .decl loc nm => "participant img:".toList ++ loc ++ ' ' :: nm
  | .other s => s

/-- The cleaned text of one line. -/
def cleanLine : SrcLine → List Char
  | .decl _ nm => "participant ".toList ++ nm
  | .other s => s

/-- Lines joined by newlines. -/
def srcText : List SrcLine → List Char
  | [] => []
  | [ l ] => lineText l
  | l :: l2 :: ls => lineText l ++ '\n' :: srcText (l2 :: ls)

/-- Cleaned lines joined by newlines. -/
def cleanText : List SrcLine → List Char
  | [] => []
  | [ l ] => cleanLine l
  | l :: l2 :: ls => cleanLine l ++ '\n' :: cleanText (l2 :: ls)

/-- The image mapping accumulated over the declarations, in order. -/
def declFold : List SrcLine → List (List Char × List Char) →
    List (List Char × List Char)
  | [], m => m
  | .decl loc nm :: ls, m => declFold ls (mapSet m (trimWs nm) loc)
  | .other _ :: ls, m => declFold ls m

/-- Well-formedness: a declaration has a nonempty whitespace-free locator
and a nonempty newline-free name starting with a non-space; any other line
does not contain the token `participant`. -/
def lineOk : SrcLine → Bool
  | .decl loc nm =>
      !loc.isEmpty && loc.all (fun c => !(isWs c))
        && !nm.isEmpty && nm.all (fun c => !(c == '\n'))
        && (match nm with | [] => false | c :: _ => !(isWs c))
  | .other s => !(listContainsSub s "participant".toList)

/-! ### Actor images (C7)

`addActorImages` (index.tsx) walks the `g` descendants of the graphic,
keeps those with a `rect` and a `text` descendant whose class attribute
contains `actor` or that contain a `line`, and for each whose trimmed text
content is a key of the image mapping appends a 48 by 48 `image` element
(placed `padding = 20` in from the box edge and vertically centred) and
shifts the title text right by half of `logoSize + 4 = 52`.  The clip-path
bookkeeping under `defs` is modelled by a fixed clip-path reference string:
the original derives the id from `Math.random`, which only names the clip
shape and touches no actor group. -/

/-- `querySelector` by tag: first matching proper descendant. -/
def qsel (t : String) (e : Elem) : Option Elem :=
  match qsaPos [ Sel.tag t ] e with
  | [] => none
  | p :: _ => elemAt e p

/-- The actor-candidate filter of `addActorImages`. -/
def actorCandidate (g : Elem) : Bool :=
  (qsel "rect" g).isSome && (qsel "text" g).isSome
    && (g.data.classes.any (fun c => strIncludes c "actor")
        || (qsel "line" g).isSome)

/-- The attached logo image element. -/
def imageElem (href : String) (x y : ℚ) : Elem :=
  Elem.mk
    (NodeData.mk "image" [ "actor-logo" ]
      [ ("href", href), ("clip-path", "url(#actor-logo-clip)") ]
      [ ("x", x), ("y", y), ("width", 48), ("height", 48) ] "") []

mutual
/-- Replace the subtree at a position (identity when out of range). -/
def replaceAt : Elem → List Nat → Elem → Elem
  | _, [], r => r
  | .mk d ch, i :: rest, r => .mk d (replaceAtChildren ch i rest r)
def replaceAtChildren : List Elem → Nat → List Nat → Elem → List Elem
  | [], _, _, _ => []
  | c :: cs, 0, rest, r => replaceAt c rest r :: cs
  | c :: cs, i + 1, rest, r => c :: replaceAtChildren cs i rest r
end

/-- The per-actor action of `addActorImages`. -/
def attachImage (m : List (List Char × List Char)) (g : Elem) : Elem :=
  if actorCandidate g then
    match qsel "text" g, qsel "rect" g with
    | some te, some re =>
        match mapGet m (trimWs te.data.text.toList) with
        | some imgPath =>
            let x := getND re.data "x" 0
            let y := getND re.data "y" 0
            let height := getND re.data "height" 0
            let imageX := x + 20
            let imageY := y + (height - 48) / 2
            let g2 :=
              match qsaPos [ Sel.tag "text" ] g with
              | [] => g
              | p :: _ =>
                  modifyAt (fun d => setN d "x" (getND d "x" 0 + 52 / 2)) g p
            match g2 with
            | .mk d ch =>
                .mk d (ch ++ [ imageElem (String.mk imgPath) imageX imageY ])
        | none => g
    | _, _ => g
  else g

/-- `addActorImages` (index.tsx). -/
def addActorImages (svg : Elem) (m : List (List Char × List Char)) : Elem :=
  if m.isEmpty then svg
  else
    (qsaPos [ Sel.tag "g" ] svg).foldl
      (fun t p =>
        match elemAt t p with
        | some g => replaceAt t p (attachImage m g)
        | none => t) svg

/-- The diagram source of the C7 scenario. -/
def scenarioChart : String :=
  "participant img:https://x/a.png A\nparticipant B\nA->>B: hi"

/-- A representative laid-out actor group: a box and a title. -/
def scenarioActor (nm : String) (x : ℚ) : Elem :=
  Elem.mk (NodeData.mk "g" [ "actor-box" ] [] [] "")
    [ Elem.mk
        (NodeData.mk "rect" [ "actor" ] []
          [ ("x", x), ("y", 0), ("width", 150), ("height", 65) ] "") [],
      Elem.mk
        (NodeData.mk "text" [ "actor" ] []
          [ ("x", x + 75), ("y", 32) ] nm) [] ]

/-- A representative laid-out graphic for the scenario: two actors. -/
def scenarioSvg : Elem :=
  .mk { tag := "svg" } [ scenarioActor "A" 0, scenarioActor "B" 200 ]

/-- Number of attached logo images in a subtree. -/
def imageCount (e : Elem) : Nat :=
  (qsaPos [ Sel.tagCls "image" "actor-logo" ] e).length

/-! ## Theorems: scheduler arithmetic -/

theorem ite_gt_eq_max (e acc : ℚ) : (if e > acc then e else acc) = max acc e := by
  rcases le_or_lt e acc with h | h
  · rw [if_neg (not_lt.mpr h), max_eq_left h]
  · rw [if_pos h, max_eq_right h.le]

theorem minDuration_le_calculateDuration (l : ℚ) :
    minDuration ≤ calculateDuration l := le_max_left _ _

theorem calculateDuration_pos (l : ℚ) : 0 < calculateDuration l :=
  lt_of_lt_of_le (by norm_num [minDuration]) (minDuration_le_calculateDuration l)

theorem sum_calculateDuration_nonneg (ls : List ℚ) :
    0 ≤ (ls.map calculateDuration).sum := by
  induction ls with
  | nil => simp
  | cons l ls ih =>
      simp only [List.map_cons, List.sum_cons]
      exact add_nonneg (calculateDuration_pos l).le ih

theorem createParticlesForPath_eq (l t : ℚ) :
    createParticlesForPath l t =
      ([ { pathLength := l, duration := calculateDuration l, offset := 0,
           startTime := t },
         { pathLength := l, duration := calculateDuration l, offset := 0,
           startTime := t } ],
       t + calculateDuration l) := by
  simp [createParticlesForPath, particleCount, List.range_succ]

theorem setupStep_eq (acc : List ParticleAnimation) (t l : ℚ) :
    setupStep (acc, t) l =
      (acc ++
        [ { pathLength := l, duration := calculateDuration l, offset := 0,
            startTime := t },
          { pathLength := l, duration := calculateDuration l, offset := 0,
            startTime := t } ],
       t + calculateDuration l) := by
  simp [setupStep, createParticlesForPath_eq]

theorem setup_foldl_eq (ls : List ℚ) :
    ∀ (acc : List ParticleAnimation) (t : ℚ),
      (ls.foldl setupStep (acc, t)).1 = acc ++ chainAnimations ls t := by
  induction ls with
  | nil => intro acc t; simp [chainAnimations]
  | cons l ls ih =>
      intro acc t
      rw [List.foldl_cons, setupStep_eq, ih]
      simp [chainAnimations]

theorem setupParticleAnimations_eq (ls : List ℚ) (t : ℚ) :
    setupParticleAnimations ls t = chainAnimations ls t := by
  simpa [setupParticleAnimations] using setup_foldl_eq ls [] t

theorem coreAnimations_chain (ls : List ℚ) :
    ∀ t, coreAnimations (chainAnimations ls t) = chainCores ls t := by
  induction ls with
  | nil => intro t; simp [chainAnimations, chainCores, coreAnimations]
  | cons l ls ih =>
      intro t
      simp only [chainAnimations, chainCores, coreAnimations]
      rw [ih]

theorem chainCores_length (ls : List ℚ) :
    ∀ t, (chainCores ls t).length = ls.length := by
  induction ls with
  | nil => intro t; simp [chainCores]
  | cons l ls ih => intro t; simp [chainCores, ih]

theorem chainCores_duration (ls : List ℚ) :
    ∀ t a, a ∈ chainCores ls t → a.duration = calculateDuration a.pathLength := by
  induction ls with
  | nil => intro t a h; simp [chainCores] at h
  | cons l ls ih =>
      intro t a h
      simp only [chainCores, List.mem_cons] at h
      rcases h with h | h
      · subst h; rfl
      · exact ih _ a h

theorem chainCores_start_ge (ls : List ℚ) :
    ∀ (t : ℚ) (i : Nat) (a : ParticleAnimation),
      (chainCores ls t)[i]? = some a → t ≤ a.startTime := by
  induction ls with
  | nil => intro t i a h; simp [chainCores] at h
  | cons l ls ih =>
      intro t i a h
      simp only [chainCores] at h
      cases i with
      | zero =>
          simp only [List.getElem?_cons_zero, Option.some.injEq] at h
          subst h; rfl
      | succ i =>
          simp only [List.getElem?_cons_succ] at h
          calc t ≤ t + calculateDuration l := by
                  have := (calculateDuration_pos l).le
                  linarith
            _ ≤ a.startTime := ih _ i a h

theorem chainCores_succ (ls : List ℚ) :
    ∀ (t : ℚ) (i : Nat) (a b : ParticleAnimation),
      (chainCores ls t)[i]? = some a →
      (chainCores ls t)[i + 1]? = some b →
      b.startTime = a.startTime + a.duration := by
  induction ls with
  | nil => intro t i a b h _; simp [chainCores] at h
  | cons l ls ih =>
      intro t i a b ha hb
      simp only [chainCores] at ha hb
      cases i with
      | zero =>
          simp only [List.getElem?_cons_zero, Option.some.injEq] at ha
          simp only [List.getElem?_cons_succ] at hb
          subst ha
          cases ls with
          | nil => simp [chainCores] at hb
          | cons l2 ls2 =>
              simp only [chainCores, List.getElem?_cons_zero,
                Option.some.injEq] at hb
              subst hb; rfl
      | succ i =>
          simp only [List.getElem?_cons_succ] at ha hb
          exact ih _ i a b ha hb

theorem chainCores_disjoint (ls : List ℚ) :
    ∀ (t : ℚ) (i j : Nat) (a b : ParticleAnimation), i < j →
      (chainCores ls t)[i]? = some a →
      (chainCores ls t)[j]? = some b →
      a.startTime + a.duration ≤ b.startTime := by
  induction ls with
  | nil => intro t i j a b _ h _; simp [chainCores] at h
  | cons l ls ih =>
      intro t i j a b hij ha hb
      simp only [chainCores] at ha hb
      cases i with
      | zero =>
          cases j with
          | zero => omega
          | succ j =>
              simp only [List.getElem?_cons_zero, Option.some.injEq] at ha
              simp only [List.getElem?_cons_succ] at hb
              subst ha
              exact chainCores_start_ge ls _ j b hb
      | succ i =>
          cases j with
          | zero => omega
          | succ j =>
              simp only [List.getElem?_cons_succ] at ha hb
              exact ih _ i j a b (by omega) ha hb

theorem maxEndEven_cons2 (s0 acc : ℚ) (a b : ParticleAnimation)
    (rest : List ParticleAnimation) :
    maxEndEven s0 (a :: b :: rest) acc =
      maxEndEven s0 rest (max acc (a.startTime + a.duration - s0)) := by
  have h : maxEndEven s0 (a :: b :: rest) acc
      = maxEndEven s0 rest
          (if a.startTime + a.duration - s0 > acc
           then a.startTime + a.duration - s0 else acc) := rfl
  rw [h, ite_gt_eq_max]

theorem maxEndEven_chain (ls : List ℚ) :
    ∀ (l t s0 acc : ℚ), maxEndEven s0 (chainAnimations (l :: ls) t) acc =
      max acc (t - s0 + ((l :: ls).map calculateDuration).sum) := by
  induction ls with
  | nil =>
      intro l t s0 acc
      have h : chainAnimations [ l ] t =
          [ { pathLength := l, duration := calculateDuration l, offset := 0,
              startTime := t },
            { pathLength := l, duration := calculateDuration l, offset := 0,
              startTime := t } ] := rfl
      rw [h, maxEndEven_cons2]
      change max acc (t + calculateDuration l - s0) = _
      simp only [List.map_cons, List.map_nil, List.sum_cons, List.sum_nil]
      congr 1
      ring
  | cons x xs ih =>
      intro l t s0 acc
      have h : chainAnimations (l :: x :: xs) t =
          { pathLength := l, duration := calculateDuration l, offset := 0,
            startTime := t } ::
          { pathLength := l, duration := calculateDuration l, offset := 0,
            startTime := t } ::
          chainAnimations (x :: xs) (t + calculateDuration l) := rfl
      rw [h, maxEndEven_cons2]
      change maxEndEven s0 (chainAnimations (x :: xs) (t + calculateDuration l))
        (max acc (t + calculateDuration l - s0)) = _
      rw [ih x (t + calculateDuration l) s0 _]
      have he : (t + calculateDuration l - s0 : ℚ)
          ≤ t + calculateDuration l - s0
            + (List.map calculateDuration (x :: xs)).sum := by
        have hS := sum_calculateDuration_nonneg (x :: xs)
        linarith
      rw [max_assoc, max_eq_right he]
      simp only [List.map_cons, List.sum_cons]
      congr 1
      ring

theorem chainAnimations_head_start (l : ℚ) (ls : List ℚ) (t : ℚ) :
    ∃ rest, chainAnimations (l :: ls) t =
      { pathLength := l, duration := calculateDuration l, offset := 0,
        startTime := t } :: rest := by
  exact ⟨_, rfl⟩

/-- **C1.** For every diagram whose edges are classified in traversal order
(each edge represented by its measured path length), the particle setup
assigns each edge exactly one time window, chained with no gaps
(`start_(i+1) = start_i + duration_i`), pairwise disjoint, and the loop
duration computed by `startParticleAnimation` (max of `startTime + duration`
over core records) equals the sum of the per-edge durations. -/
theorem claim_C1_sequential_schedule (edgeLengths : List ℚ) (now : ℚ) :
    (coreAnimations (setupParticleAnimations edgeLengths now)).length
        = edgeLengths.length
    ∧ (∀ (i : Nat) (a b : ParticleAnimation),
        (coreAnimations (setupParticleAnimations edgeLengths now))[i]? = some a →
        (coreAnimations (setupParticleAnimations edgeLengths now))[i + 1]? = some b →
        b.startTime = a.startTime + a.duration)
    ∧ (∀ (i j : Nat) (a b : ParticleAnimation), i < j →
        (coreAnimations (setupParticleAnimations edgeLengths now))[i]? = some a →
        (coreAnimations (setupParticleAnimations edgeLengths now))[j]? = some b →
        a.startTime + a.duration ≤ b.startTime)
    ∧ (∀ a ∈ coreAnimations (setupParticleAnimations edgeLengths now),
        0 < a.duration)
    ∧ (∀ loopInfo,
        startParticleAnimation (setupParticleAnimations edgeLengths now)
          = some loopInfo →
        loopInfo.totalSequenceDuration
          = (edgeLengths.map calculateDuration).sum) := by
  rw [setupParticleAnimations_eq, coreAnimations_chain]
  refine ⟨chainCores_length _ _, chainCores_succ _ _, chainCores_disjoint _ _,
    ?_, ?_⟩
  · intro a ha
    rw [chainCores_duration edgeLengths now a ha]
    exact calculateDuration_pos _
  · intro loopInfo hloop
    cases edgeLengths with
    | nil => simp [chainAnimations, startParticleAnimation] at hloop
    | cons l ls =>
        simp only [chainAnimations, startParticleAnimation,
          Option.some.injEq] at hloop
        have hmax := maxEndEven_chain ls l now now 0
        simp only [chainAnimations] at hmax
        rw [← hloop]
        simp only [hmax]
        have hsum := sum_calculateDuration_nonneg (l :: ls)
        rw [max_eq_right (by simpa using hsum)]
        ring

theorem claim_C1_sequential_schedule_witness :
    ∃ loopInfo,
      startParticleAnimation (setupParticleAnimations [ 100, 400 ] 0)
        = some loopInfo ∧ loopInfo.totalSequenceDuration = 5500 := by
  have hc :
      startParticleAnimation (setupParticleAnimations [ 100, 400 ] 0)
        = some { totalSequenceDuration := 5500, sequenceStartTime := 0 } := by
    norm_num [setupParticleAnimations, setupStep, createParticlesForPath,
      particleCount, List.range_succ, calculateDuration, minDuration,
      maxDuration, durationMultiplier, startParticleAnimation, maxEndEven]
  refine ⟨{ totalSequenceDuration := 5500, sequenceStartTime := 0 }, hc, ?_⟩
  have h :=
    (claim_C1_sequential_schedule [ 100, 400 ] 0).2.2.2.2
      { totalSequenceDuration := 5500, sequenceStartTime := 0 } hc
  rw [h]
  norm_num [calculateDuration, minDuration, maxDuration, durationMultiplier]

/-! ## Theorems: duration clamp (C2) -/

/-- **C2 (counterexample).** The claim asserts that for path length 100 the
duration is `max(2000, min(3500, 1500)) == 1500` ms; in fact
`max(2000, min(3500, 1500)) = 2000`, and `calculateDuration 100 = 2000`,
not 1500. -/
theorem claim_C2_counterexample :
    calculateDuration 100 = 2000 ∧ calculateDuration 100 ≠ 1500 := by
  constructor <;>
    norm_num [ calculateDuration, minDuration, maxDuration, durationMultiplier]

/-- **C2 (amended).** For every non-negative path length `L`, the per-edge
duration is `clamp(L * 15, 2000, 3500)` ms; for length 0 it is 2000 ms, for
every length at least `3500 / 15` it is 3500 ms, and for length 100 it is
`max(2000, min(3500, 1500)) = 2000` ms (the clamp evaluates to 2000, not the
1500 the original claim stated). -/
theorem claim_C2_duration_clamp (L : ℚ) (_hL : 0 ≤ L) :
    calculateDuration L = max 2000 (min 3500 (L * 15))
    ∧ calculateDuration 0 = 2000
    ∧ (3500 / 15 ≤ L → calculateDuration L = 3500)
    ∧ calculateDuration 100 = 2000 := by
  refine ⟨rfl, by norm_num [ calculateDuration, minDuration, maxDuration,
    durationMultiplier], ?_, by norm_num [ calculateDuration, minDuration,
    maxDuration, durationMultiplier]⟩
  intro h
  have h15 : (3500 : ℚ) ≤ L * 15 := by
    have := mul_le_mul_of_nonneg_right h (by norm_num : (0:ℚ) ≤ 15)
    linarith [this]
  unfold calculateDuration minDuration maxDuration durationMultiplier
  rw [min_eq_left h15, max_eq_right (by norm_num : (2000:ℚ) ≤ 3500)]

theorem claim_C2_duration_clamp_witness : calculateDuration 300 = 3500 := by
  have h := claim_C2_duration_clamp 300 (by norm_num)
  exact h.2.2.1 (by norm_num)

/-! ## Theorems: opacity trapezoid and per-frame writes (C3) -/

theorem calculateOpacity_of_lt (p : ℚ) (h : p < 15 / 100) :
    calculateOpacity p = p / (15 / 100) := by
  simp only [calculateOpacity]
  rw [if_pos h]

theorem calculateOpacity_of_mid (p : ℚ) (h1 : ¬ p < 15 / 100)
    (h2 : ¬ 85 / 100 < p) : calculateOpacity p = 1 := by
  simp only [calculateOpacity]
  rw [if_neg h1, if_neg h2]

theorem calculateOpacity_of_gt (p : ℚ) (h1 : ¬ p < 15 / 100)
    (h2 : 85 / 100 < p) :
    calculateOpacity p = (1 - p) / (1 - 85 / 100) := by
  simp only [calculateOpacity]
  rw [if_neg h1, if_pos h2]

/-- **C3.** The opacity function is `0` at `0`, `1` at `0.15`, `0.5` and
`0.85`, `0` at `1`; monotonically increasing on `[0, 0.15]`, constantly `1`
on `[0.15, 0.85]`, monotonically decreasing on `[0.85, 1]`; and each frame an
written opacity of an in-window particle is computed from the raw (non-eased)
local progress while its written position is the path point at the
cubic-eased progress times the path length. -/
theorem claim_C3_opacity_profile :
    calculateOpacity 0 = 0
    ∧ calculateOpacity (15 / 100) = 1
    ∧ calculateOpacity (1 / 2) = 1
    ∧ calculateOpacity (85 / 100) = 1
    ∧ calculateOpacity 1 = 0
    ∧ (∀ p q : ℚ, 0 ≤ p → p ≤ q → q ≤ 15 / 100 →
        calculateOpacity p ≤ calculateOpacity q)
    ∧ (∀ p : ℚ, 15 / 100 ≤ p → p ≤ 85 / 100 → calculateOpacity p = 1)
    ∧ (∀ p q : ℚ, 85 / 100 ≤ p → p ≤ q → q ≤ 1 →
        calculateOpacity q ≤ calculateOpacity p)
    ∧ (∀ (animation : ParticleAnimation) (pointAtLength : ℚ → Option (ℚ × ℚ))
        (currentTime : ℚ) (isCore glowIsElement : Bool)
        (totalDur seqStart : ℚ) (el glow : ElemState) (x y : ℚ),
        animation.startTime - seqStart
            ≤ jsMod (currentTime - seqStart) totalDur →
        jsMod (currentTime - seqStart) totalDur
            < animation.startTime - seqStart + animation.duration →
        pointAtLength (easeInOutCubic
            ((jsMod (currentTime - seqStart) totalDur
              - (animation.startTime - seqStart)) / animation.duration)
          * animation.pathLength) = some (x, y) →
        (updateParticlePosition animation pointAtLength currentTime isCore
            glowIsElement totalDur seqStart el glow).1
          = { cx := x, cy := y,
              opacity := calculateOpacity
                ((jsMod (currentTime - seqStart) totalDur
                  - (animation.startTime - seqStart)) / animation.duration) }) := by
  refine ⟨by norm_num [ calculateOpacity], by norm_num [ calculateOpacity],
    by norm_num [ calculateOpacity], by norm_num [ calculateOpacity],
    by norm_num [ calculateOpacity], ?_, ?_, ?_, ?_⟩
  · intro p q h0 hpq hq
    by_cases hq15 : q < 15 / 100
    · have hp15 : p < 15 / 100 := lt_of_le_of_lt hpq hq15
      rw [calculateOpacity_of_lt p hp15, calculateOpacity_of_lt q hq15]
      gcongr
    · have h2q : ¬ 85 / 100 < q := by
        intro hgt
        have hc : (15:ℚ) / 100 < 85 / 100 := by norm_num
        linarith
      rw [calculateOpacity_of_mid q hq15 h2q]
      by_cases hp15 : p < 15 / 100
      · rw [calculateOpacity_of_lt p hp15]
        rw [div_le_one (by norm_num : (0:ℚ) < 15 / 100)]
        exact hp15.le
      · rw [calculateOpacity_of_mid p hp15 (by
          intro hgt
          have hple : p ≤ 15 / 100 := le_trans hpq hq
          have hc : (15:ℚ) / 100 < 85 / 100 := by norm_num
          linarith)]
  · intro p h1 h2
    exact calculateOpacity_of_mid p (not_lt.mpr h1) (not_lt.mpr h2)
  · intro p q hp hpq hq1
    have hp15 : ¬ p < 15 / 100 := not_lt.mpr (by linarith)
    have hq15 : ¬ q < 15 / 100 := not_lt.mpr (by linarith)
    by_cases hp85 : 85 / 100 < p
    · have hq85 : 85 / 100 < q := lt_of_lt_of_le hp85 hpq
      rw [calculateOpacity_of_gt p hp15 hp85,
        calculateOpacity_of_gt q hq15 hq85]
      gcongr
    · rw [calculateOpacity_of_mid p hp15 hp85]
      by_cases hq85 : 85 / 100 < q
      · rw [calculateOpacity_of_gt q hq15 hq85]
        rw [div_le_one (by norm_num : (0:ℚ) < 1 - 85 / 100)]
        linarith
      · rw [calculateOpacity_of_mid q hq15 hq85]
  · intro animation pointAtLength currentTime isCore glowIsElement totalDur
      seqStart el glow x y h1 h2 hpt
    unfold updateParticlePosition
    simp only []
    rw [if_pos ⟨h1, h2⟩, hpt]

theorem claim_C3_opacity_profile_witness : calculateOpacity (1 / 2) = 1 :=
  claim_C3_opacity_profile.2.2.2.2.2.2.1 (1 / 2) (by norm_num) (by norm_num)

/-! ## Theorems: idle driver behaviour (C10) -/

/-- **C10.** `startParticleAnimation` on the empty animation list returns the
no-op cleanup without starting a frame loop (modelled by `none`: no frame is
scheduled and no attribute is written); and for a particle outside its active
window the frame update writes only `opacity = 0`, leaving `cx` and `cy`
unchanged. -/
theorem claim_C10_idle_behaviour :
    startParticleAnimation [] = none
    ∧ (∀ (animation : ParticleAnimation) (pointAtLength : ℚ → Option (ℚ × ℚ))
        (currentTime : ℚ) (isCore glowIsElement : Bool)
        (totalDur seqStart : ℚ) (el glow : ElemState),
        ¬ (animation.startTime - seqStart
              ≤ jsMod (currentTime - seqStart) totalDur
            ∧ jsMod (currentTime - seqStart) totalDur
              < animation.startTime - seqStart + animation.duration) →
        (updateParticlePosition animation pointAtLength currentTime isCore
            glowIsElement totalDur seqStart el glow).1
          = { el with opacity := 0 }) := by
  refine ⟨rfl, ?_⟩
  intro animation pointAtLength currentTime isCore glowIsElement totalDur
    seqStart el glow h
  unfold updateParticlePosition
  simp only []
  rw [if_neg h]

theorem claim_C10_idle_behaviour_witness :
    (updateParticlePosition
      { pathLength := 10, duration := 2000, offset := 0, startTime := 5000 }
      (fun _ => none) 100 true false 2000 0
      { cx := 1, cy := 2, opacity := 3 }
      { cx := 4, cy := 5, opacity := 6 }).1
    = { cx := 1, cy := 2, opacity := 0 } := by
  have hfl : ⌊((100:ℚ) - 0) / 2000⌋ = 0 := by
    rw [Int.floor_eq_zero_iff]
    constructor <;> norm_num
  have hj : jsMod ((100:ℚ) - 0) 2000 = 100 := by
    unfold jsMod ratTrunc
    rw [if_pos (by norm_num : (0:ℚ) ≤ ((100:ℚ) - 0) / 2000), hfl]
    norm_num
  have h := claim_C10_idle_behaviour.2
    { pathLength := 10, duration := 2000, offset := 0, startTime := 5000 }
    (fun _ => none) 100 true false 2000 0
    { cx := 1, cy := 2, opacity := 3 }
    { cx := 4, cy := 5, opacity := 6 }
    (by
      rintro ⟨hA, _⟩
      rw [hj] at hA
      norm_num at hA)
  exact h

/-! ## Theorems: theme re-invocation (C5) -/

/-- **C5 (counterexample).** Applying a red theme and then a blue theme to
the same graphic leaves two style blocks attached: the block injected for the
old theme is retained, not superseded, contradicting the claim that the
graphic does not contain an additional retained style block from the old
theme. -/
theorem claim_C5_counterexample :
    applyCustomTheme (some { primaryColor := some "blue" })
        (applyCustomTheme (some { primaryColor := some "red" }) [])
      = [ themeStyles { primaryColor := some "red" },
          themeStyles { primaryColor := some "blue" } ]
    ∧ themeStyles { primaryColor := some "red" }
        ≠ themeStyles { primaryColor := some "blue" } := by
  constructor
  · rfl
  · decide

/-- **C5 (amended).** Re-invoking the theming step after the theme prop
changes appends a fresh style block with the rules of the new theme at the
end of the graphic (so, by CSS source order among equal-specificity
important rules, the new theme takes effect), but the style block injected
for the old theme is retained — the blocks accumulate rather than being
superseded. -/
theorem claim_C5_theme_accumulation (t1 t2 : CustomTheme)
    (blocks : List (List CssRule))
    (h1 : themeStyles t1 ≠ []) (h2 : themeStyles t2 ≠ []) :
    applyCustomTheme (some t2) (applyCustomTheme (some t1) blocks)
      = blocks ++ [ themeStyles t1 ] ++ [ themeStyles t2 ]
    ∧ themeStyles t1
        ∈ applyCustomTheme (some t2) (applyCustomTheme (some t1) blocks)
    ∧ (applyCustomTheme (some t2)
        (applyCustomTheme (some t1) blocks)).getLast?
        = some (themeStyles t2) := by
  have hne1 : ¬ (themeStyles t1).isEmpty = true := by
    simpa [List.isEmpty_iff] using h1
  have hne2 : ¬ (themeStyles t2).isEmpty = true := by
    simpa [List.isEmpty_iff] using h2
  have heq : applyCustomTheme (some t2) (applyCustomTheme (some t1) blocks)
      = blocks ++ [ themeStyles t1 ] ++ [ themeStyles t2 ] := by
    simp only [applyCustomTheme]
    rw [if_neg hne2, if_neg hne1]
  refine ⟨heq, ?_, ?_⟩
  · rw [heq]; simp
  · rw [heq]; simp

theorem claim_C5_theme_accumulation_witness :
    applyCustomTheme (some { textColor := some "black" })
        (applyCustomTheme (some { primaryColor := some "red" }) [])
      = [ themeStyles { primaryColor := some "red" },
          themeStyles { textColor := some "black" } ] := by
  have h := claim_C5_theme_accumulation
    { primaryColor := some "red" } { textColor := some "black" } []
    (by decide) (by decide)
  simpa using h.1

/-! ## Theorems: export image fallback chain (C6) -/

/-- **C6.** `urlToDataUri` never rejects: a successful fetch yields the
data-encoded copy of the blob, a blocked fetch falls back to the
image-element re-render, and if that also fails the fixed 1x1 transparent
placeholder is returned; consequently the image-inlining step of the export
never rejects on account of image resources alone. -/
theorem claim_C6_export_image_fallback :
    (∀ (url : String) (fetch : FetchOutcome) (imgLoad : ImgLoadOutcome),
      ∃ s, urlToDataUri url fetch imgLoad = .ok s)
    ∧ (∀ (url blobData : String) (imgLoad : ImgLoadOutcome),
        urlToDataUri url (.ok blobData) imgLoad
          = .ok (readAsDataURL blobData))
    ∧ (∀ (url err dataUri : String),
        urlToDataUri url (.blocked err) (.ok dataUri) = .ok dataUri)
    ∧ (∀ (url err err2 : String),
        urlToDataUri url (.blocked err) (.fail err2)
          = .ok transparentPixelDataUri)
    ∧ (∀ images, ∃ hrefs, inlineImageHrefs images = .ok hrefs) := by
  have hok : ∀ (url : String) (fetch : FetchOutcome)
      (imgLoad : ImgLoadOutcome), ∃ s, urlToDataUri url fetch imgLoad = .ok s := by
    intro url fetch imgLoad
    cases fetch with
    | ok b => exact ⟨readAsDataURL b, rfl⟩
    | blocked e =>
        cases imgLoad with
        | ok d => exact ⟨d, rfl⟩
        | fail e2 => exact ⟨transparentPixelDataUri, rfl⟩
  refine ⟨hok, fun url b i => rfl, fun url e d => rfl, fun url e e2 => rfl, ?_⟩
  intro images
  induction images with
  | nil => exact ⟨[], rfl⟩
  | cons img rest ih =>
      obtain ⟨others, hothers⟩ := ih
      by_cases hx : img.1.startsWith "http" = true
      · obtain ⟨s, hs⟩ := hok img.1 img.2.1 img.2.2
        refine ⟨s :: others, ?_⟩
        simp [inlineImageHrefs, hx, hs, hothers]
      · refine ⟨img.1 :: others, ?_⟩
        simp [inlineImageHrefs, hx, hothers]

/-! ## Theorems: attribute algebra -/

theorem beq_false_of_not_true {b : Bool} (h : ¬ b = true) : b = false := by
  cases b with
  | true => exact absurd rfl h
  | false => rfl

theorem find_upsertN_self (l : List (String × ℚ)) (k : String) (v : ℚ) :
    (((upsertN l k v).find? (fun p => p.1 == k)).map (fun p => p.2))
      = some v := by
  induction l with
  | nil =>
      simp [upsertN, List.find?]
  | cons p rest ih =>
      rcases p with ⟨k0, v0⟩
      by_cases h : (k0 == k) = true
      · simp [upsertN, if_pos h, List.find?, h]
      · have hf : (k0 == k) = false := beq_false_of_not_true h
        simp only [upsertN, hf, Bool.false_eq_true, if_false, List.find?]
        exact ih

theorem find_upsertN_ne (l : List (String × ℚ)) (k : String) (v : ℚ)
    (k2 : String) (h : (k == k2) = false) :
    (upsertN l k v).find? (fun p => p.1 == k2)
      = l.find? (fun p => p.1 == k2) := by
  induction l with
  | nil =>
      simp [upsertN, List.find?, h]
  | cons p rest ih =>
      rcases p with ⟨k0, v0⟩
      by_cases h0 : (k0 == k) = true
      · have hk0 : k0 = k := eq_of_beq h0
        subst hk0
        simp only [upsertN, h0, if_true, List.find?, h]
      · have hf : (k0 == k) = false := beq_false_of_not_true h0
        simp only [upsertN, hf, Bool.false_eq_true, if_false, List.find?]
        cases hcase : (k0 == k2) with
        | true => rfl
        | false => exact ih

theorem getN_setN_lookup (d : NodeData) (k : String) (v : ℚ) (k2 : String) :
    getN (setN d k v) k2 = if (k == k2) = true then some v else getN d k2 := by
  by_cases h : (k == k2) = true
  · have hk : k = k2 := eq_of_beq h
    subst hk
    rw [if_pos h]
    simpa [getN, setN] using find_upsertN_self d.nattrs k v
  · have hf : (k == k2) = false := beq_false_of_not_true h
    rw [if_neg h]
    simp only [getN, setN]
    rw [find_upsertN_ne d.nattrs k v k2 hf]

theorem getND_setN_lookup (d : NodeData) (k : String) (v : ℚ) (k2 : String)
    (dflt : ℚ) :
    getND (setN d k v) k2 dflt
      = if (k == k2) = true then v else getND d k2 dflt := by
  simp only [getND, getN_setN_lookup]
  by_cases h : (k == k2) = true
  · rw [if_pos h, if_pos h]
    rfl
  · rw [if_neg h, if_neg h]

/-! ## Theorems: edge-label box geometry (C9) -/

/-- **C9.** Every edge-label rectangle processed by `enhanceEdgeLabelBoxes`
ends with width `max(width, 110)` and height `max(height, 60)` (the padded
minima); an enlargement shifts `x` (resp. `y`) left (resp. up) by half the
size increase, so the centre point is unchanged; rectangles already at or
above the padded minima keep `width`, `height`, `x` and `y` unchanged; and
the corner radii are always set to 12. -/
theorem claim_C9_edge_label_box_geometry (d : NodeData) :
    getND (edgeLabelBoxAct d) "width" 0 = max (getND d "width" 0) 110
    ∧ getND (edgeLabelBoxAct d) "height" 0 = max (getND d "height" 0) 60
    ∧ getND (edgeLabelBoxAct d) "x" 0
        + getND (edgeLabelBoxAct d) "width" 0 / 2
      = getND d "x" 0 + getND d "width" 0 / 2
    ∧ getND (edgeLabelBoxAct d) "y" 0
        + getND (edgeLabelBoxAct d) "height" 0 / 2
      = getND d "y" 0 + getND d "height" 0 / 2
    ∧ (110 ≤ getND d "width" 0 →
        getN (edgeLabelBoxAct d) "width" = getN d "width"
        ∧ getN (edgeLabelBoxAct d) "x" = getN d "x")
    ∧ (60 ≤ getND d "height" 0 →
        getN (edgeLabelBoxAct d) "height" = getN d "height"
        ∧ getN (edgeLabelBoxAct d) "y" = getN d "y")
    ∧ getN (edgeLabelBoxAct d) "rx" = some 12
    ∧ getN (edgeLabelBoxAct d) "ry" = some 12 := by
  have h110 : edgeLabelMinWidth + 20 = (110 : ℚ) := by
    norm_num [edgeLabelMinWidth]
  have h60 : edgeLabelMinHeight + 10 = (60 : ℚ) := by
    norm_num [edgeLabelMinHeight]
  refine ⟨?_, ?_, ?_, ?_, ?_, ?_, ?_, ?_⟩ <;>
    simp only [edgeLabelBoxAct, h110, h60, edgeLabelBorderRadius] <;>
    split_ifs with h1 h2 <;>
    simp [getND_setN_lookup, getN_setN_lookup] <;>
    first
      | rfl
      | ring1
      | simp_all [sup_eq_left]

theorem claim_C9_edge_label_box_geometry_witness :
    getN (edgeLabelBoxAct
        { tag := "rect", nattrs := [ ("width", 120), ("x", 5) ] }) "width"
      = getN ({ tag := "rect", nattrs := [ ("width", 120), ("x", 5) ] }
          : NodeData) "width" := by
  have h := (claim_C9_edge_label_box_geometry
      { tag := "rect", nattrs := [ ("width", 120), ("x", 5) ] }).2.2.2.2.1
    (by norm_num [getND, getN, List.find?])
  exact h.1

/-! ## Theorems: edge fallback classification (C8) -/

/-- **C8 (counterexample).** In `markerNestTree` no edge selector matches,
and the path sits one level inside a `marker` definition (parent is a `g`):
`findEdgePathsPos` returns it, while the set described by the spec — paths
not inside a node container and not inside a marker definition — is empty. -/
theorem claim_C8_counterexample :
    (edgesSelectors.all
        (fun sels => (qsaPos sels markerNestTree).isEmpty)) = true
    ∧ findEdgePathsPos markerNestTree = [ [ 0, 0, 0 ] ]
    ∧ specEdgeFallback markerNestTree = [] := by
  refine ⟨by decide, by decide, by decide⟩

/-- **C8 (amended).** When none of the ordered edge selector patterns
matches any element, `findEdgePaths` returns exactly the path elements whose
*immediate parent* is neither a `node`-classed container nor a `marker`
element (it does not look at deeper ancestors, so a path nested more than
one level inside a marker definition is still returned). -/
theorem claim_C8_fallback_immediate_parent (root : Elem)
    (h : ∀ sels ∈ edgesSelectors, qsaPos sels root = []) :
    findEdgePathsPos root
      = ((pathsWithParent root).filter (fun pr => fallbackParentOk pr.2)).map
          (fun pr => pr.1)
    ∧ (∀ pos, pos ∈ findEdgePathsPos root ↔
        ∃ parent, (pos, parent) ∈ pathsWithParent root
          ∧ parent.classes.contains "node" = false
          ∧ parent.tag ≠ "marker") := by
  have hnone : edgesSelectors.find?
      (fun sels => !(qsaPos sels root).isEmpty) = none := by
    rw [List.find?_eq_none]
    intro sels hsels
    rw [h sels hsels]
    simp
  have heq : findEdgePathsPos root
      = ((pathsWithParent root).filter (fun pr => fallbackParentOk pr.2)).map
          (fun pr => pr.1) := by
    simp only [findEdgePathsPos, hnone]
  refine ⟨heq, ?_⟩
  intro pos
  rw [heq]
  simp only [List.mem_map, List.mem_filter, fallbackParentOk]
  constructor
  · rintro ⟨pr, ⟨hmem, hok⟩, hfst⟩
    simp at hok
    refine ⟨pr.2, ?_, ?_, ?_⟩
    · rw [← hfst]
      exact hmem
    · simpa using hok.1
    · simpa using hok.2
  · rintro ⟨parent, hmem, hnode, hmark⟩
    refine ⟨(pos, parent), ⟨hmem, ?_⟩, rfl⟩
    have hnode2 : "node" ∉ parent.classes := by simpa using hnode
    simp [hnode2, hmark]

theorem claim_C8_fallback_immediate_parent_witness :
    findEdgePathsPos markerNestTree
      = ((pathsWithParent markerNestTree).filter
          (fun pr => fallbackParentOk pr.2)).map (fun pr => pr.1) :=
  (claim_C8_fallback_immediate_parent markerNestTree (by decide)).1

/-! ## Theorems: observation invariance for the classifier (towards C4) -/

theorem contains_eq_true_iff_mem (l : List String) (a : String) :
    l.contains a = true ↔ a ∈ l := by simp

theorem anyCongr {α : Type} (l : List α) (p q : α → Bool)
    (h : ∀ a ∈ l, p a = q a) : l.any p = l.any q := by
  induction l with
  | nil => rfl
  | cons x xs ih =>
      simp only [List.any_cons]
      rw [h x (by simp), ih (fun a ha => h a (by simp [ha]))]

theorem obsEq_refl (d : NodeData) : ObsEq d d := ⟨rfl, fun _ _ => Iff.rfl⟩

theorem obsEqL_refl (anc : List NodeData) : ObsEqL anc anc := by
  induction anc with
  | nil => exact List.Forall₂.nil
  | cons a l ih => exact List.Forall₂.cons (obsEq_refl a) ih

theorem obsEqL_append {anc anc2 : List NodeData} {d d2 : NodeData}
    (h : ObsEqL anc anc2) (hd : ObsEq d d2) :
    ObsEqL (anc ++ [ d ]) (anc2 ++ [ d2 ]) := by
  induction h with
  | nil => exact List.Forall₂.cons hd List.Forall₂.nil
  | cons hab _ ih => exact List.Forall₂.cons hab ih

theorem addClass_tag (d : NodeData) (c : String) :
    (addClass d c).tag = d.tag := by
  unfold addClass
  split_ifs <;> rfl

theorem addClass_mem_iff (d : NodeData) (c c2 : String) :
    c2 ∈ (addClass d c).classes ↔ c2 ∈ d.classes ∨ c2 = c := by
  unfold addClass
  split_ifs with h
  · constructor
    · exact fun hm => Or.inl hm
    · rintro (hm | hm)
      · exact hm
      · rw [hm]; exact h
  · simp

theorem obsEq_addClass (d : NodeData) (c : String) (hc : c ∈ addedClasses) :
    ObsEq (addClass d c) d := by
  refine ⟨addClass_tag d c, fun c2 hc2 => ?_⟩
  rw [addClass_mem_iff]
  constructor
  · rintro (hm | hm)
    · exact hm
    · rw [hm] at hc2; exact absurd hc hc2
  · exact Or.inl

theorem obsEq_setN (d : NodeData) (k : String) (v : ℚ) :
    ObsEq (setN d k v) d := ⟨rfl, fun _ _ => Iff.rfl⟩

theorem obsEq_trans {a b c : NodeData} (h1 : ObsEq a b) (h2 : ObsEq b c) :
    ObsEq a c := by
  refine ⟨h1.1.trans h2.1, fun s hs => (h1.2 s hs).trans (h2.2 s hs)⟩

theorem setN_classes (d : NodeData) (k : String) (v : ℚ) :
    (setN d k v).classes = d.classes := rfl

theorem setN_tag (d : NodeData) (k : String) (v : ℚ) :
    (setN d k v).tag = d.tag := rfl

theorem actObs_enhanceNodesAct : ActObs enhanceNodesAct := by
  intro d
  simp only [enhanceNodesAct]
  split_ifs with h
  · exact obsEq_trans
      (obsEq_trans (obsEq_setN _ "ry" 10) (obsEq_setN _ "rx" 10))
      (obsEq_addClass d "animated-node" (by simp [addedClasses]))
  · exact obsEq_addClass d "animated-node" (by simp [addedClasses])

theorem actObs_labelAct : ActObs labelAct := fun d =>
  obsEq_addClass d "animated-label" (by simp [addedClasses])

theorem actObs_edgeTagAct : ActObs edgeTagAct := fun d =>
  obsEq_addClass d "animated-edge" (by simp [addedClasses])

theorem actObs_edgeLabelBoxAct : ActObs edgeLabelBoxAct := by
  intro d
  simp only [edgeLabelBoxAct]
  split_ifs <;> exact ⟨rfl, fun _ _ => Iff.rfl⟩

theorem actObs_fixArrowMarkerAct : ActObs fixArrowMarkerAct := by
  intro d
  cases hs : getS d "id" with
  | none =>
      simp only [fixArrowMarkerAct, hs]
      exact obsEq_refl d
  | some id =>
      simp only [fixArrowMarkerAct, hs]
      split_ifs with h
      · exact obsEq_setN _ _ _
      · exact obsEq_refl d

theorem contains_eq_of_obsEq {d d2 : NodeData} (h : ObsEq d d2)
    {c : String} (hc : c ∉ addedClasses) :
    d.classes.contains c = d2.classes.contains c := by
  by_cases hm : c ∈ d.classes
  · have hm2 : c ∈ d2.classes := (h.2 c hc).mp hm
    rw [(contains_eq_true_iff_mem _ _).mpr hm,
      (contains_eq_true_iff_mem _ _).mpr hm2]
  · have hm2 : c ∉ d2.classes := fun hx => hm ((h.2 c hc).mpr hx)
    have h1 : d.classes.contains c = false := by
      cases hcc : d.classes.contains c with
      | true => exact absurd ((contains_eq_true_iff_mem _ _).mp hcc) hm
      | false => rfl
    have h2 : d2.classes.contains c = false := by
      cases hcc : d2.classes.contains c with
      | true => exact absurd ((contains_eq_true_iff_mem _ _).mp hcc) hm2
      | false => rfl
    rw [h1, h2]

theorem forall₂_any_eq {R : NodeData → NodeData → Prop}
    {l l2 : List NodeData} (h : List.Forall₂ R l l2)
    (p q : NodeData → Bool) (hpq : ∀ a b, R a b → p a = q b) :
    l.any p = l2.any q := by
  induction h with
  | nil => rfl
  | cons hab _ ih =>
      simp only [List.any_cons]
      rw [hpq _ _ hab, ih]

theorem selMatch_blind (sel : Sel) (hsel : SelOk sel)
    {anc anc2 : List NodeData} {d d2 : NodeData}
    (hl : ObsEqL anc anc2) (hd : ObsEq d d2) :
    selMatch anc d sel = selMatch anc2 d2 sel := by
  cases sel with
  | cls c =>
      have hc : c ∉ addedClasses := hsel c (by simp [Sel.classList])
      simp only [selMatch]
      rw [contains_eq_of_obsEq hd hc]
  | cls2 c c2 =>
      have hc : c ∉ addedClasses := hsel c (by simp [Sel.classList])
      have hc2 : c2 ∉ addedClasses := hsel c2 (by simp [Sel.classList])
      simp only [selMatch]
      rw [contains_eq_of_obsEq hd hc, contains_eq_of_obsEq hd hc2]
  | tag t =>
      simp only [selMatch]
      rw [hd.1]
  | tagCls t c =>
      have hc : c ∉ addedClasses := hsel c (by simp [Sel.classList])
      simp only [selMatch]
      rw [hd.1, contains_eq_of_obsEq hd hc]
  | underClsTag c t =>
      have hc : c ∉ addedClasses := hsel c (by simp [Sel.classList])
      simp only [selMatch]
      rw [hd.1]
      congr 1
      exact forall₂_any_eq hl _ _ (fun a b hab => contains_eq_of_obsEq hab hc)

theorem selsMatch_blind (sels : List Sel) (hsels : SelsOk sels)
    {anc anc2 : List NodeData} {d d2 : NodeData}
    (hl : ObsEqL anc anc2) (hd : ObsEq d d2) :
    selsMatch sels anc d = selsMatch sels anc2 d2 := by
  unfold selsMatch
  exact anyCongr sels _ _
    (fun sel hsel => selMatch_blind sel (hsels sel hsel) hl hd)

theorem forall₂_getLast? {R : NodeData → NodeData → Prop}
    {l l2 : List NodeData} (h : List.Forall₂ R l l2) :
    (l.getLast? = none ∧ l2.getLast? = none)
    ∨ ∃ a b, R a b ∧ l.getLast? = some a ∧ l2.getLast? = some b := by
  induction h with
  | nil => exact Or.inl ⟨rfl, rfl⟩
  | @cons a b l l2 hab htail ih =>
      cases htail with
      | nil => exact Or.inr ⟨a, b, hab, rfl, rfl⟩
      | @cons a2 b2 l3 l4 hab2 htail2 =>
          rcases ih with ⟨h1, _⟩ | ⟨x, y, hxy, hx, hy⟩
          · simp at h1
          · refine Or.inr ⟨x, y, hxy, ?_, ?_⟩
            · rw [List.getLast?_cons_cons, hx]
            · rw [List.getLast?_cons_cons, hy]

theorem fallbackParentOk_obsEq {a b : NodeData} (h : ObsEq a b) :
    fallbackParentOk a = fallbackParentOk b := by
  unfold fallbackParentOk
  rw [h.1, contains_eq_of_obsEq h (by simp [addedClasses])]

theorem predBlind_edgeFallback : PredBlind edgeFallbackPred := by
  intro anc anc2 d d2 hl hd
  unfold edgeFallbackPred
  rw [hd.1]
  congr 1
  rcases forall₂_getLast? hl with ⟨h1, h2⟩ | ⟨a, b, hab, ha, hb⟩
  · rw [h1, h2]
  · rw [ha, hb]
    simp only []
    exact fallbackParentOk_obsEq hab

theorem predBlind_selsMatch (sels : List Sel) (hsels : SelsOk sels) :
    PredBlind (selsMatch sels) := by
  intro anc anc2 d d2 hl hd
  exact selsMatch_blind sels hsels hl hd

/-! ## Theorems: generic traversal lemmas (towards C4) -/

mutual
theorem mapAllElem_congr (F G : List NodeData → NodeData → NodeData)
    (h : ∀ anc d, F anc d = G anc d) :
    ∀ (anc : List NodeData) (e : Elem),
      mapAllElem F anc e = mapAllElem G anc e
  | anc, .mk d ch => by
      rw [mapAllElem, mapAllElem, h anc d,
        mapAllChildren_congr F G h (anc ++ [ d ]) ch]
theorem mapAllChildren_congr (F G : List NodeData → NodeData → NodeData)
    (h : ∀ anc d, F anc d = G anc d) :
    ∀ (anc : List NodeData) (es : List Elem),
      mapAllChildren F anc es = mapAllChildren G anc es
  | _, [] => rfl
  | anc, e :: es => by
      rw [mapAllChildren, mapAllChildren, mapAllElem_congr F G h anc e,
        mapAllChildren_congr F G h anc es]
end

theorem mapAll_congr (F G : List NodeData → NodeData → NodeData)
    (h : ∀ anc d, F anc d = G anc d) (t : Elem) : mapAll F t = mapAll G t := by
  cases t with
  | mk d ch =>
      rw [mapAll, mapAll, mapAllChildren_congr F G h [ d ] ch]

mutual
theorem mapAllElem_id :
    ∀ (anc : List NodeData) (e : Elem),
      mapAllElem (fun _ d => d) anc e = e
  | anc, .mk d ch => by
      rw [mapAllElem, mapAllChildren_id (anc ++ [ d ]) ch]
theorem mapAllChildren_id :
    ∀ (anc : List NodeData) (es : List Elem),
      mapAllChildren (fun _ d => d) anc es = es
  | _, [] => rfl
  | anc, e :: es => by
      rw [mapAllChildren, mapAllElem_id anc e, mapAllChildren_id anc es]
end

theorem mapAll_id (t : Elem) : mapAll (fun _ d => d) t = t := by
  cases t with
  | mk d ch => rw [mapAll, mapAllChildren_id [ d ] ch]

mutual
theorem mapPassElem_eq_mapAll (P : EnhancePass) (hs : SelsOk P.sels)
    (ha : ActObs P.act) :
    ∀ (ancT anc : List NodeData) (e : Elem), ObsEqL ancT anc →
      mapPassElem P ancT e = mapAllElem (condAct P) anc e
  | ancT, anc, .mk d ch, hl => by
      simp only [mapPassElem, mapAllElem, condAct]
      have hm : selsMatch P.sels ancT d = selsMatch P.sels anc d :=
        selsMatch_blind P.sels hs hl (obsEq_refl d)
      rw [hm]
      have hd2 : ObsEq (if selsMatch P.sels anc d then P.act d else d) d := by
        split_ifs with hcond
        · exact ha d
        · exact obsEq_refl d
      rw [mapPassChildren_eq_mapAll P hs ha
        (ancT ++ [ if selsMatch P.sels anc d then P.act d else d ])
        (anc ++ [ d ]) ch (obsEqL_append hl hd2)]
theorem mapPassChildren_eq_mapAll (P : EnhancePass) (hs : SelsOk P.sels)
    (ha : ActObs P.act) :
    ∀ (ancT anc : List NodeData) (es : List Elem), ObsEqL ancT anc →
      mapPassChildren P ancT es = mapAllChildren (condAct P) anc es
  | _, _, [], _ => rfl
  | ancT, anc, e :: es, hl => by
      rw [mapPassChildren, mapAllChildren,
        mapPassElem_eq_mapAll P hs ha ancT anc e hl,
        mapPassChildren_eq_mapAll P hs ha ancT anc es hl]
end

theorem runPass_eq_mapAll (P : EnhancePass) (hs : SelsOk P.sels)
    (ha : ActObs P.act) (t : Elem) : runPass P t = mapAll (condAct P) t := by
  cases t with
  | mk d ch =>
      rw [runPass, mapAll,
        mapPassChildren_eq_mapAll P hs ha [ d ] [ d ] ch (obsEqL_refl [ d ])]

mutual
theorem collectElem_on_mapAll (p : List NodeData → NodeData → Bool)
    (hp : PredBlind p) (F : List NodeData → NodeData → NodeData)
    (hF : ∀ anc d, ObsEq (F anc d) d) :
    ∀ (e : Elem) (ancC ancF ancO : List NodeData) (pos : List Nat),
      ObsEqL ancC ancO →
      collectElem p ancC pos (mapAllElem F ancF e) = collectElem p ancO pos e
  | .mk d ch, ancC, ancF, ancO, pos, hl => by
      simp only [mapAllElem, collectElem]
      rw [hp ancC ancO (F ancF d) d hl (hF ancF d)]
      rw [collectChildren_on_mapAll p hp F hF ch (ancC ++ [ F ancF d ])
        (ancF ++ [ d ]) (ancO ++ [ d ]) pos 0
        (obsEqL_append hl (hF ancF d))]
theorem collectChildren_on_mapAll (p : List NodeData → NodeData → Bool)
    (hp : PredBlind p) (F : List NodeData → NodeData → NodeData)
    (hF : ∀ anc d, ObsEq (F anc d) d) :
    ∀ (es : List Elem) (ancC ancF ancO : List NodeData) (pos : List Nat)
      (i : Nat), ObsEqL ancC ancO →
      collectChildren p ancC pos i (mapAllChildren F ancF es)
        = collectChildren p ancO pos i es
  | [], _, _, _, _, _, _ => rfl
  | e :: es, ancC, ancF, ancO, pos, i, hl => by
      rw [mapAllChildren, collectChildren, collectChildren,
        collectElem_on_mapAll p hp F hF e ancC ancF ancO (pos ++ [ i ]) hl,
        collectChildren_on_mapAll p hp F hF es ancC ancF ancO pos (i + 1) hl]
end

theorem collectPos_on_mapAll (p : List NodeData → NodeData → Bool)
    (hp : PredBlind p) (F : List NodeData → NodeData → NodeData)
    (hF : ∀ anc d, ObsEq (F anc d) d) (t : Elem) :
    collectPos p (mapAll F t) = collectPos p t := by
  cases t with
  | mk d ch =>
      rw [mapAll, collectPos, collectPos,
        collectChildren_on_mapAll p hp F hF ch [ d ] [ d ] [ d ] [] 0
          (obsEqL_refl [ d ])]

mutual
theorem mapAllElem_comp (F1 F2 : List NodeData → NodeData → NodeData)
    (h1 : ∀ anc d, ObsEq (F1 anc d) d) (hb : StackBlind F2) :
    ∀ (e : Elem) (ancT anc : List NodeData), ObsEqL ancT anc →
      mapAllElem F2 ancT (mapAllElem F1 anc e)
        = mapAllElem (fun anc2 d => F2 anc2 (F1 anc2 d)) anc e
  | .mk d ch, ancT, anc, hl => by
      simp only [mapAllElem]
      rw [hb ancT anc (F1 anc d) hl]
      rw [mapAllChildren_comp F1 F2 h1 hb ch (ancT ++ [ F1 anc d ])
        (anc ++ [ d ]) (obsEqL_append hl (h1 anc d))]
theorem mapAllChildren_comp (F1 F2 : List NodeData → NodeData → NodeData)
    (h1 : ∀ anc d, ObsEq (F1 anc d) d) (hb : StackBlind F2) :
    ∀ (es : List Elem) (ancT anc : List NodeData), ObsEqL ancT anc →
      mapAllChildren F2 ancT (mapAllChildren F1 anc es)
        = mapAllChildren (fun anc2 d => F2 anc2 (F1 anc2 d)) anc es
  | [], _, _, _ => rfl
  | e :: es, ancT, anc, hl => by
      rw [mapAllChildren, mapAllChildren, mapAllChildren,
        mapAllElem_comp F1 F2 h1 hb e ancT anc hl,
        mapAllChildren_comp F1 F2 h1 hb es ancT anc hl]
end

theorem mapAll_comp (F1 F2 : List NodeData → NodeData → NodeData)
    (h1 : ∀ anc d, ObsEq (F1 anc d) d) (hb : StackBlind F2) (t : Elem) :
    mapAll F2 (mapAll F1 t)
      = mapAll (fun anc d => F2 anc (F1 anc d)) t := by
  cases t with
  | mk d ch =>
      rw [mapAll, mapAll, mapAll,
        mapAllChildren_comp F1 F2 h1 hb ch [ d ] [ d ] (obsEqL_refl [ d ])]

mutual
theorem pathsWithParentElem_filter_eq :
    ∀ (e : Elem) (anc : List NodeData) (parent : NodeData) (pos : List Nat),
      anc.getLast? = some parent →
      ((pathsWithParentElem parent pos e).filter
          (fun pr => fallbackParentOk pr.2)).map (fun pr => pr.1)
        = collectElem edgeFallbackPred anc pos e
  | .mk d ch, anc, parent, pos, hlast => by
      simp only [pathsWithParentElem, collectElem, List.filter_append,
        List.map_append]
      rw [pathsWithParentChildren_filter_eq ch d (anc ++ [ d ]) pos 0
        (by rw [List.getLast?_concat])]
      congr 1
      by_cases hp : (d.tag == "path") = true
      · simp only [hp, if_true, edgeFallbackPred, hlast]
        by_cases hok : fallbackParentOk parent = true
        · simp [hok, List.filter, List.map]
        · have hf : fallbackParentOk parent = false :=
            beq_false_of_not_true hok
          simp [hf, List.filter]
      · have hf : (d.tag == "path") = false := beq_false_of_not_true hp
        simp [hf, edgeFallbackPred]
theorem pathsWithParentChildren_filter_eq :
    ∀ (es : List Elem) (d : NodeData) (anc : List NodeData) (pos : List Nat)
      (i : Nat), anc.getLast? = some d →
      ((pathsWithParentChildren d pos i es).filter
          (fun pr => fallbackParentOk pr.2)).map (fun pr => pr.1)
        = collectChildren edgeFallbackPred anc pos i es
  | [], _, _, _, _, _ => rfl
  | e :: es, d, anc, pos, i, hlast => by
      simp only [pathsWithParentChildren, collectChildren, List.filter_append,
        List.map_append]
      rw [pathsWithParentElem_filter_eq e anc d (pos ++ [ i ]) hlast,
        pathsWithParentChildren_filter_eq es d anc pos (i + 1) hlast]
end

theorem fallback_filter_eq_collect (root : Elem) :
    ((pathsWithParent root).filter (fun pr => fallbackParentOk pr.2)).map
        (fun pr => pr.1)
      = collectPos edgeFallbackPred root := by
  cases root with
  | mk d ch =>
      rw [pathsWithParent, collectPos,
        pathsWithParentChildren_filter_eq ch d [ d ] [] 0 (by rfl)]

mutual
theorem collectElem_shift (p : List NodeData → NodeData → Bool) :
    ∀ (e : Elem) (anc : List NodeData) (pos : List Nat),
      collectElem p anc pos e
        = (collectElem p anc [] e).map (fun q => pos ++ q)
  | .mk d ch, anc, pos => by
      simp only [collectElem, List.map_append]
      congr 1
      · by_cases hp : p anc d = true
        · simp [hp]
        · have hf : p anc d = false := beq_false_of_not_true hp
          simp [hf]
      · rw [collectChildren_shift p ch (anc ++ [ d ]) pos 0]
theorem collectChildren_shift (p : List NodeData → NodeData → Bool) :
    ∀ (es : List Elem) (anc : List NodeData) (pos : List Nat) (i : Nat),
      collectChildren p anc pos i es
        = (collectChildren p anc [] i es).map (fun q => pos ++ q)
  | [], _, _, _ => rfl
  | e :: es, anc, pos, i => by
      simp only [collectChildren, List.map_append, List.nil_append]
      congr 1
      · rw [collectElem_shift p e anc (pos ++ [ i ]),
          collectElem_shift p e anc [ i ], List.map_map]
        apply List.map_congr_left
        intro q _
        simp
      · rw [collectChildren_shift p es anc pos (i + 1)]
end

theorem set_getElem_self (ch : List Elem) :
    ∀ (j : Nat) (c : Elem), ch[j]? = some c → ch.set j c = ch := by
  induction ch with
  | nil => intro j c h; simp at h
  | cons x xs ih =>
      intro j c h
      cases j with
      | zero =>
          simp only [List.getElem?_cons_zero, Option.some.injEq] at h
          rw [← h]
          rfl
      | succ j =>
          simp only [List.getElem?_cons_succ] at h
          simp only [List.set_cons_succ]
          rw [ih j c h]

theorem getElem?_set_self_of_some (ch : List Elem) :
    ∀ (j : Nat) (c x : Elem), ch[j]? = some c → (ch.set j x)[j]? = some x := by
  induction ch with
  | nil => intro j c x h; simp at h
  | cons y ys ih =>
      intro j c x h
      cases j with
      | zero => simp
      | succ j =>
          simp only [List.getElem?_cons_succ] at h
          simp only [List.set_cons_succ, List.getElem?_cons_succ]
          exact ih j c x h

theorem modifyAtChildren_eq_set (f : NodeData → NodeData) :
    ∀ (ch : List Elem) (j : Nat) (q : List Nat),
      modifyAtChildren f ch j q
        = match ch[j]? with
          | some c => ch.set j (modifyAt f c q)
          | none => ch := by
  intro ch
  induction ch with
  | nil => intro j q; cases j <;> rfl
  | cons x xs ih =>
      intro j q
      cases j with
      | zero =>
          simp only [List.getElem?_cons_zero, modifyAtChildren,
            List.set_cons_zero]
      | succ j =>
          simp only [List.getElem?_cons_succ, List.set_cons_succ,
            modifyAtChildren]
          rw [ih j q]
          cases hx : xs[j]? <;> rfl

theorem applyAt_child_block (f : NodeData → NodeData) :
    ∀ (L : List (List Nat)) (d : NodeData) (ch : List Elem) (j : Nat)
      (c : Elem), ch[j]? = some c →
      applyAtPositions f (.mk d ch) (L.map (fun q => j :: q))
        = .mk d (ch.set j (applyAtPositions f c L))
  | [], d, ch, j, c, hc => by
      simp only [applyAtPositions, List.map_nil, List.foldl_nil]
      rw [set_getElem_self ch j c hc]
  | q :: L, d, ch, j, c, hc => by
      have hstep : applyAtPositions f (Elem.mk d ch)
          ((q :: L).map (fun q2 => j :: q2))
          = applyAtPositions f (modifyAt f (Elem.mk d ch) (j :: q))
            (L.map (fun q2 => j :: q2)) := rfl
      rw [hstep]
      have h1 : modifyAt f (Elem.mk d ch) (j :: q)
          = .mk d (ch.set j (modifyAt f c q)) := by
        rw [modifyAt, modifyAtChildren_eq_set f ch j q, hc]
      rw [h1]
      have h2 : (ch.set j (modifyAt f c q))[j]? = some (modifyAt f c q) :=
        getElem?_set_self_of_some ch j c (modifyAt f c q) hc
      rw [applyAt_child_block f L d (ch.set j (modifyAt f c q)) j
        (modifyAt f c q) h2, List.set_set]
      have hstep2 : applyAtPositions f c (q :: L)
          = applyAtPositions f (modifyAt f c q) L := rfl
      rw [hstep2]

theorem set_append_cons (x : Elem) :
    ∀ (pre : List Elem) (e : Elem) (es : List Elem),
      (pre ++ e :: es).set pre.length x = pre ++ x :: es := by
  intro pre
  induction pre with
  | nil => intro e es; rfl
  | cons y ys ih =>
      intro e es
      simp only [List.cons_append, List.length_cons, List.set_cons_succ]
      rw [ih e es]

theorem getElem?_append_cons :
    ∀ (pre : List Elem) (e : Elem) (es : List Elem),
      (pre ++ e :: es)[pre.length]? = some e := by
  intro pre
  induction pre with
  | nil => intro e es; simp
  | cons y ys ih =>
      intro e es
      simp only [List.cons_append, List.length_cons, List.getElem?_cons_succ]
      exact ih e es

theorem applyAtPositions_append (f : NodeData → NodeData) (t : Elem)
    (L1 L2 : List (List Nat)) :
    applyAtPositions f t (L1 ++ L2)
      = applyAtPositions f (applyAtPositions f t L1) L2 := by
  simp only [applyAtPositions, List.foldl_append]

mutual
theorem applyAt_collectElem (p : List NodeData → NodeData → Bool)
    (f : NodeData → NodeData) :
    ∀ (e : Elem) (anc : List NodeData),
      applyAtPositions f e (collectElem p anc [] e)
        = mapAllElem (fun anc2 d2 => if p anc2 d2 then f d2 else d2) anc e
  | .mk d ch, anc => by
      simp only [collectElem, mapAllElem, List.nil_append]
      by_cases hp : p anc d = true
      · rw [if_pos hp, if_pos hp]
        have hsplit : applyAtPositions f (Elem.mk d ch)
            ([ ([] : List Nat) ] ++ collectChildren p (anc ++ [ d ]) [] 0 ch)
            = applyAtPositions f (Elem.mk (f d) ch)
                (collectChildren p (anc ++ [ d ]) [] 0 ch) := rfl
        rw [hsplit]
        have h := applyAt_collectChildren p f ch (f d) [] (anc ++ [ d ])
        simp only [List.length_nil, List.nil_append] at h
        exact h
      · have hf : p anc d = false := beq_false_of_not_true hp
        rw [hf]
        simp only [Bool.false_eq_true, if_false, List.nil_append]
        have h := applyAt_collectChildren p f ch d [] (anc ++ [ d ])
        simp only [List.length_nil, List.nil_append] at h
        exact h
theorem applyAt_collectChildren (p : List NodeData → NodeData → Bool)
    (f : NodeData → NodeData) :
    ∀ (es : List Elem) (d : NodeData) (pre : List Elem)
      (anc : List NodeData),
      applyAtPositions f (.mk d (pre ++ es))
          (collectChildren p anc [] pre.length es)
        = .mk d (pre ++ mapAllChildren
            (fun anc2 d2 => if p anc2 d2 then f d2 else d2) anc es)
  | [], d, pre, anc => by
      simp [applyAtPositions, collectChildren, mapAllChildren]
  | e :: es, d, pre, anc => by
      simp only [collectChildren, mapAllChildren, List.nil_append]
      rw [applyAtPositions_append]
      have hmap : collectElem p anc [ pre.length ] e
          = (collectElem p anc [] e).map (fun q => pre.length :: q) := by
        rw [collectElem_shift p e anc [ pre.length ]]
        rfl
      rw [hmap]
      rw [applyAt_child_block f (collectElem p anc [] e) d (pre ++ e :: es)
        pre.length e (getElem?_append_cons pre e es)]
      rw [set_append_cons]
      rw [applyAt_collectElem p f e anc]
      have h := applyAt_collectChildren p f es d
        (pre ++ [ mapAllElem (fun anc2 d2 => if p anc2 d2 then f d2 else d2)
          anc e ]) anc
      simp only [List.length_append, List.length_cons, List.length_nil,
        List.append_assoc, List.cons_append, List.nil_append] at h ⊢
      exact h
end

theorem applyAt_collect_eq_mapAll (p : List NodeData → NodeData → Bool)
    (f : NodeData → NodeData) (t : Elem) :
    applyAtPositions f t (collectPos p t)
      = mapAll (fun anc d => if p anc d then f d else d) t := by
  cases t with
  | mk d ch =>
      rw [collectPos, mapAll]
      have h := applyAt_collectChildren p f ch d [] [ d ]
      simp only [List.length_nil, List.nil_append] at h
      exact h

/-! ## Theorems: action algebra (towards C4) -/

theorem upsertN_collapse (l : List (String × ℚ)) (k : String) (v w : ℚ) :
    upsertN (upsertN l k v) k w = upsertN l k w := by
  induction l with
  | nil => simp [upsertN]
  | cons p rest ih =>
      rcases p with ⟨k0, v0⟩
      by_cases h : (k0 == k) = true
      · simp [upsertN, h]
      · have hf : (k0 == k) = false := beq_false_of_not_true h
        simp [upsertN, hf, ih]

theorem setN_collapse (d : NodeData) (k : String) (v w : ℚ) :
    setN (setN d k v) k w = setN d k w := by
  simp [setN, upsertN_collapse]

theorem upsertN_self_id (l : List (String × ℚ)) (k : String) (v : ℚ)
    (h : (l.find? (fun p => p.1 == k)).map (fun p => p.2) = some v) :
    upsertN l k v = l := by
  induction l with
  | nil => simp [List.find?] at h
  | cons p rest ih =>
      rcases p with ⟨k0, v0⟩
      by_cases h0 : (k0 == k) = true
      · simp only [List.find?, h0] at h
        have hv : v0 = v := by
          simpa using h
        simp [upsertN, h0, hv]
      · have hf : (k0 == k) = false := beq_false_of_not_true h0
        simp only [List.find?, hf] at h
        simp [upsertN, hf, ih h]

theorem setN_self_id (d : NodeData) (k : String) (v : ℚ)
    (h : getN d k = some v) : setN d k v = d := by
  simp only [getN] at h
  simp [setN, upsertN_self_id d.nattrs k v h]

theorem upsertN_comm (l : List (String × ℚ)) (k1 k2 : String) (v1 v2 : ℚ)
    (hne : (k1 == k2) = false)
    (hpresent : ((l.find? (fun p => p.1 == k1)).isSome = true)
      ∨ ((l.find? (fun p => p.1 == k2)).isSome = true)) :
    upsertN (upsertN l k1 v1) k2 v2 = upsertN (upsertN l k2 v2) k1 v1 := by
  induction l with
  | nil =>
      rcases hpresent with h | h <;> simp [List.find?] at h
  | cons p rest ih =>
      rcases p with ⟨k0, v0⟩
      by_cases h1 : (k0 == k1) = true
      · have hk0 : k0 = k1 := eq_of_beq h1
        subst hk0
        have h2 : (k0 == k2) = false := by
          cases hc : (k0 == k2) with
          | true =>
              have : k0 = k2 := eq_of_beq hc
              rw [this] at hne
              simp at hne
          | false => rfl
        simp [upsertN, h1, h2]
      · have hf1 : (k0 == k1) = false := beq_false_of_not_true h1
        by_cases h2 : (k0 == k2) = true
        · simp [upsertN, hf1, h2]
        · have hf2 : (k0 == k2) = false := beq_false_of_not_true h2
          simp only [upsertN, hf1, hf2, Bool.false_eq_true, if_false,
            List.cons.injEq, true_and]
          apply ih
          rcases hpresent with h | h
          · simp only [List.find?, hf1] at h
            exact Or.inl h
          · simp only [List.find?, hf2] at h
            exact Or.inr h

theorem isSome_map_eq {α β : Type} (o : Option α) (f : α → β) :
    (o.map f).isSome = o.isSome := by
  cases o <;> rfl

theorem setN_comm (d : NodeData) (k1 k2 : String) (v1 v2 : ℚ)
    (hne : (k1 == k2) = false)
    (hpresent : (getN d k1).isSome = true ∨ (getN d k2).isSome = true) :
    setN (setN d k1 v1) k2 v2 = setN (setN d k2 v2) k1 v1 := by
  simp only [setN]
  congr 1
  apply upsertN_comm d.nattrs k1 k2 v1 v2 hne
  rcases hpresent with h | h
  · rw [getN, isSome_map_eq] at h
    exact Or.inl h
  · rw [getN, isSome_map_eq] at h
    exact Or.inr h

theorem getN_addClass (d : NodeData) (c k : String) :
    getN (addClass d c) k = getN d k := by
  unfold addClass
  split_ifs <;> rfl

theorem addClass_id (d : NodeData) (c : String) (h : c ∈ d.classes) :
    addClass d c = d := by
  unfold addClass
  rw [if_pos h]

theorem mem_addClass_self (d : NodeData) (c : String) :
    c ∈ (addClass d c).classes := by
  rw [addClass_mem_iff]
  exact Or.inr rfl

theorem mem_addClass_of_mem (d : NodeData) (c c2 : String)
    (h : c2 ∈ d.classes) : c2 ∈ (addClass d c).classes := by
  rw [addClass_mem_iff]
  exact Or.inl h

theorem setN_isSome (d : NodeData) (k k2 : String) (v : ℚ)
    (h : (getN d k2).isSome = true) : (getN (setN d k v) k2).isSome = true := by
  rw [getN_setN_lookup]
  split_ifs <;> simp_all

theorem enhanceNodesAct_rect (d : NodeData) (h : (d.tag == "rect") = true) :
    enhanceNodesAct d
      = setN (setN (addClass d "animated-node") "rx" 10) "ry" 10 := by
  simp only [enhanceNodesAct]
  rw [if_pos]
  rw [addClass_tag]
  exact h

theorem enhanceNodesAct_other (d : NodeData) (h : (d.tag == "rect") = false) :
    enhanceNodesAct d = addClass d "animated-node" := by
  simp only [enhanceNodesAct]
  rw [if_neg]
  rw [addClass_tag, h]
  simp

theorem edgeLabelBoxAct_classes (d : NodeData) :
    (edgeLabelBoxAct d).classes = d.classes := by
  simp only [edgeLabelBoxAct]
  split_ifs <;> rfl

theorem edgeLabelBoxAct_tag (d : NodeData) :
    (edgeLabelBoxAct d).tag = d.tag := by
  simp only [edgeLabelBoxAct]
  split_ifs <;> rfl

theorem edgeLabelBoxAct_width (d : NodeData) :
    getND (edgeLabelBoxAct d) "width" 0 = max (getND d "width" 0) 110 := by
  have h110 : edgeLabelMinWidth + 20 = (110 : ℚ) := by
    norm_num [edgeLabelMinWidth]
  have h60 : edgeLabelMinHeight + 10 = (60 : ℚ) := by
    norm_num [edgeLabelMinHeight]
  simp only [edgeLabelBoxAct, h110, h60, edgeLabelBorderRadius]
  split_ifs with h1 h2 <;>
    simp [getND_setN_lookup] <;>
    simp_all [sup_eq_left]

theorem edgeLabelBoxAct_height (d : NodeData) :
    getND (edgeLabelBoxAct d) "height" 0 = max (getND d "height" 0) 60 := by
  have h110 : edgeLabelMinWidth + 20 = (110 : ℚ) := by
    norm_num [edgeLabelMinWidth]
  have h60 : edgeLabelMinHeight + 10 = (60 : ℚ) := by
    norm_num [edgeLabelMinHeight]
  simp only [edgeLabelBoxAct, h110, h60, edgeLabelBorderRadius]
  split_ifs with h1 h2 <;>
    simp [getND_setN_lookup] <;>
    simp_all [sup_eq_left]

theorem edgeLabelBoxAct_rx (d : NodeData) :
    getN (edgeLabelBoxAct d) "rx" = some 12 := by
  simp only [edgeLabelBoxAct, edgeLabelBorderRadius]
  split_ifs <;> simp [getN_setN_lookup]

theorem edgeLabelBoxAct_ry (d : NodeData) :
    getN (edgeLabelBoxAct d) "ry" = some 12 := by
  simp only [edgeLabelBoxAct, edgeLabelBorderRadius]
  split_ifs <;> simp [getN_setN_lookup]

theorem edgeLabelBoxAct_no_resize (d : NodeData)
    (hw : 110 ≤ getND d "width" 0) (hh : 60 ≤ getND d "height" 0) :
    edgeLabelBoxAct d = setN (setN d "rx" 12) "ry" 12 := by
  have h110 : edgeLabelMinWidth + 20 = (110 : ℚ) := by
    norm_num [edgeLabelMinWidth]
  have h60 : edgeLabelMinHeight + 10 = (60 : ℚ) := by
    norm_num [edgeLabelMinHeight]
  simp only [edgeLabelBoxAct, h110, h60, edgeLabelBorderRadius]
  rw [if_neg (by simp [sup_eq_left.mpr hh]),
    if_neg (by simp [sup_eq_left.mpr hw])]

theorem fixArrowMarkerAct_classes (d : NodeData) :
    (fixArrowMarkerAct d).classes = d.classes := by
  cases hgs : getS d "id" with
  | none => simp only [fixArrowMarkerAct, hgs]
  | some id =>
      simp only [fixArrowMarkerAct, hgs]
      split_ifs <;> rfl

theorem fixArrowMarkerAct_tag (d : NodeData) :
    (fixArrowMarkerAct d).tag = d.tag := by
  cases hgs : getS d "id" with
  | none => simp only [fixArrowMarkerAct, hgs]
  | some id =>
      simp only [fixArrowMarkerAct, hgs]
      split_ifs <;> rfl

theorem fixArrowMarkerAct_getN_other (d : NodeData) (k : String)
    (h : ("refX" == k) = false) :
    getN (fixArrowMarkerAct d) k = getN d k := by
  cases hgs : getS d "id" with
  | none => simp only [fixArrowMarkerAct, hgs]
  | some id =>
      simp only [fixArrowMarkerAct, hgs]
      split_ifs with hcond
      · rw [getN_setN_lookup, if_neg (by simp_all)]
      · rfl

theorem obsEq_symm {a b : NodeData} (h : ObsEq a b) : ObsEq b a :=
  ⟨h.1.symm, fun c hc => (h.2 c hc).symm⟩

theorem obsEq_if (c : Prop) [Decidable c] (f : NodeData → NodeData)
    (hf : ActObs f) (x : NodeData) : ObsEq (if c then f x else x) x := by
  split_ifs with hc
  · exact hf x
  · exact obsEq_refl x

theorem obsEq_condAct (P : EnhancePass) (ha : ActObs P.act)
    (anc : List NodeData) (x : NodeData) : ObsEq (condAct P anc x) x := by
  unfold condAct
  exact obsEq_if _ P.act ha x

theorem selsMatch_stage (sels : List Sel) (hs : SelsOk sels)
    (anc : List NodeData) {x y : NodeData} (h : ObsEq x y) :
    selsMatch sels anc x = selsMatch sels anc y :=
  selsMatch_blind sels hs (obsEqL_refl anc) h

theorem mem_classes_setN (x : NodeData) (k : String) (v : ℚ) (c : String) :
    c ∈ (setN x k v).classes ↔ c ∈ x.classes := by
  rw [setN_classes]

theorem mem_classes_enhanceNodesAct (x : NodeData) (c2 : String)
    (h : c2 ∈ x.classes) : c2 ∈ (enhanceNodesAct x).classes := by
  simp only [enhanceNodesAct]
  split_ifs with hr
  · rw [mem_classes_setN, mem_classes_setN]
    exact mem_addClass_of_mem _ _ _ h
  · exact mem_addClass_of_mem _ _ _ h

theorem mem_an_enhanceNodesAct (x : NodeData) :
    "animated-node" ∈ (enhanceNodesAct x).classes := by
  simp only [enhanceNodesAct]
  split_ifs with hr
  · rw [mem_classes_setN, mem_classes_setN]
    exact mem_addClass_self _ _
  · exact mem_addClass_self _ _

theorem getN_enhanceNodesAct_other (x : NodeData) (k : String)
    (hrx : ("rx" == k) = false) (hry : ("ry" == k) = false) :
    getN (enhanceNodesAct x) k = getN x k := by
  simp only [enhanceNodesAct]
  split_ifs with hr
  · rw [getN_setN_lookup, if_neg (by simp_all), getN_setN_lookup,
      if_neg (by simp_all), getN_addClass]
  · rw [getN_addClass]

theorem getN_labelAct (x : NodeData) (k : String) :
    getN (labelAct x) k = getN x k := getN_addClass x _ k

theorem getN_edgeTagAct (x : NodeData) (k : String) :
    getN (edgeTagAct x) k = getN x k := getN_addClass x _ k

theorem labelAct_classes_mem (x : NodeData) (c : String) (h : c ∈ x.classes) :
    c ∈ (labelAct x).classes := mem_addClass_of_mem _ _ _ h

theorem edgeTagAct_classes_mem (x : NodeData) (c : String)
    (h : c ∈ x.classes) : c ∈ (edgeTagAct x).classes :=
  mem_addClass_of_mem _ _ _ h

theorem enhanceNodesAct_tag (x : NodeData) :
    (enhanceNodesAct x).tag = x.tag := by
  simp only [enhanceNodesAct]
  split_ifs with hr
  · rw [setN_tag, setN_tag, addClass_tag]
  · rw [addClass_tag]

theorem mem_classes_if {c : Prop} [Decidable c] (f : NodeData → NodeData)
    (hf : ∀ x c2, c2 ∈ x.classes → c2 ∈ (f x).classes) (x : NodeData)
    (c2 : String) (h : c2 ∈ x.classes) :
    c2 ∈ ((if c then f x else x) : NodeData).classes := by
  split_ifs with hc
  · exact hf x c2 h
  · exact h

theorem getN_if {c : Prop} [Decidable c] (f : NodeData → NodeData)
    (hf : ∀ x, getN (f x) k = getN x k) (x : NodeData) :
    getN ((if c then f x else x) : NodeData) k = getN x k := by
  split_ifs with hc
  · exact hf x
  · rfl

theorem selsOk_nodes : SelsOk nodesSelectors := by
  simp [SelsOk, SelOk, nodesSelectors, Sel.classList, addedClasses]

theorem selsOk_labels : SelsOk (nodeLabelsSelectors ++ edgeLabelsSelectors) := by
  simp [SelsOk, SelOk, nodeLabelsSelectors, edgeLabelsSelectors,
    Sel.classList, addedClasses]

theorem selsOk_boxes : SelsOk edgeLabelRectsSelectors := by
  simp [SelsOk, SelOk, edgeLabelRectsSelectors, Sel.classList, addedClasses]

theorem condAct_apply (sels : List Sel) (act : NodeData → NodeData)
    (anc : List NodeData) (x : NodeData) :
    condAct (EnhancePass.mk sels act) anc x
      = if selsMatch sels anc x then act x else x := rfl

theorem getND_eq_of_getN {a b : NodeData} {k : String}
    (h : getN a k = getN b k) (v : ℚ) : getND a k v = getND b k v := by
  unfold getND
  rw [h]

theorem boxAct_classes_mem (x : NodeData) (c2 : String)
    (h : c2 ∈ x.classes) : c2 ∈ (edgeLabelBoxAct x).classes := by
  rw [edgeLabelBoxAct_classes]
  exact h

theorem markerAct_classes_mem (x : NodeData) (c2 : String)
    (h : c2 ∈ x.classes) : c2 ∈ (fixArrowMarkerAct x).classes := by
  rw [fixArrowMarkerAct_classes]
  exact h

/-- The heart of the C4 analysis: on any node already processed by the full
classifier pipeline (with an arbitrary selector-blind edge predicate `pE`),
re-running the node / label / edge-label-box passes and the edge tagging is
the identity; only the marker pass and the layer append have a new effect. -/
theorem run2_noop (pE : List NodeData → NodeData → Bool) (hpE : PredBlind pE)
    (anc : List NodeData) (d x : NodeData)
    (hx : x = condAct (EnhancePass.mk [ Sel.tag "marker" ] fixArrowMarkerAct)
        anc
      (if pE anc (condAct (EnhancePass.mk edgeLabelRectsSelectors
            edgeLabelBoxAct) anc
          (condAct (EnhancePass.mk (nodeLabelsSelectors ++ edgeLabelsSelectors)
              labelAct) anc
            (condAct (EnhancePass.mk nodesSelectors enhanceNodesAct) anc d)))
       then edgeTagAct (condAct (EnhancePass.mk edgeLabelRectsSelectors
            edgeLabelBoxAct) anc
          (condAct (EnhancePass.mk (nodeLabelsSelectors ++ edgeLabelsSelectors)
              labelAct) anc
            (condAct (EnhancePass.mk nodesSelectors enhanceNodesAct) anc d)))
       else condAct (EnhancePass.mk edgeLabelRectsSelectors
            edgeLabelBoxAct) anc
          (condAct (EnhancePass.mk (nodeLabelsSelectors ++ edgeLabelsSelectors)
              labelAct) anc
            (condAct (EnhancePass.mk nodesSelectors enhanceNodesAct) anc d)))) :
    condAct (EnhancePass.mk edgeLabelRectsSelectors edgeLabelBoxAct) anc
        (condAct (EnhancePass.mk (nodeLabelsSelectors ++ edgeLabelsSelectors)
            labelAct) anc
          (condAct (EnhancePass.mk nodesSelectors enhanceNodesAct) anc x))
      = x
    ∧ (if pE anc x then edgeTagAct x else x) = x := by
  have hOkN : SelsOk nodesSelectors := selsOk_nodes
  have hOkL : SelsOk (nodeLabelsSelectors ++ edgeLabelsSelectors) :=
    selsOk_labels
  have hOkB : SelsOk edgeLabelRectsSelectors := selsOk_boxes
  set d1 := condAct (EnhancePass.mk nodesSelectors enhanceNodesAct) anc d
    with hd1
  set d2 := condAct (EnhancePass.mk (nodeLabelsSelectors ++
    edgeLabelsSelectors) labelAct) anc d1 with hd2
  set d3 := condAct (EnhancePass.mk edgeLabelRectsSelectors edgeLabelBoxAct)
    anc d2 with hd3
  set d4 := (if pE anc d3 then edgeTagAct d3 else d3) with hd4
  have o1 : ObsEq d1 d := obsEq_condAct _ actObs_enhanceNodesAct anc d
  have o2 : ObsEq d2 d1 := obsEq_condAct _ actObs_labelAct anc d1
  have o3 : ObsEq d3 d2 := obsEq_condAct _ actObs_edgeLabelBoxAct anc d2
  have o4 : ObsEq d4 d3 := by
    rw [hd4]
    exact obsEq_if _ _ actObs_edgeTagAct d3
  have o5 : ObsEq x d4 := by
    rw [hx]
    exact obsEq_condAct _ actObs_fixArrowMarkerAct anc d4
  have o2d : ObsEq d2 d := obsEq_trans o2 o1
  have o3d : ObsEq d3 d := obsEq_trans o3 o2d
  have o4d : ObsEq d4 d := obsEq_trans o4 o3d
  have oxd : ObsEq x d := obsEq_trans o5 o4d
  -- stage condition transport
  have hc2 : selsMatch (nodeLabelsSelectors ++ edgeLabelsSelectors) anc d1
      = selsMatch (nodeLabelsSelectors ++ edgeLabelsSelectors) anc d :=
    selsMatch_stage _ hOkL anc o1
  have hc3 : selsMatch edgeLabelRectsSelectors anc d2
      = selsMatch edgeLabelRectsSelectors anc d :=
    selsMatch_stage _ hOkB anc o2d
  have hc4 : pE anc d3 = pE anc d := hpE anc anc d3 d (obsEqL_refl anc) o3d
  -- class facts
  have F1 : selsMatch nodesSelectors anc d = true →
      "animated-node" ∈ x.classes := by
    intro hN
    have h1 : "animated-node" ∈ d1.classes := by
      rw [hd1, condAct_apply, if_pos hN]
      exact mem_an_enhanceNodesAct d
    have h2 : "animated-node" ∈ d2.classes := by
      rw [hd2, condAct_apply]
      exact mem_classes_if labelAct labelAct_classes_mem d1 _ h1
    have h3 : "animated-node" ∈ d3.classes := by
      rw [hd3, condAct_apply]
      exact mem_classes_if edgeLabelBoxAct boxAct_classes_mem d2 _ h2
    have h4 : "animated-node" ∈ d4.classes := by
      rw [hd4]
      exact mem_classes_if edgeTagAct edgeTagAct_classes_mem d3 _ h3
    rw [hx, condAct_apply]
    exact mem_classes_if fixArrowMarkerAct markerAct_classes_mem d4 _ h4
  have F2 : selsMatch (nodeLabelsSelectors ++ edgeLabelsSelectors) anc d
        = true →
      "animated-label" ∈ x.classes := by
    intro hL
    have h2 : "animated-label" ∈ d2.classes := by
      rw [hd2, condAct_apply, hc2, if_pos hL]
      exact mem_addClass_self d1 _
    have h3 : "animated-label" ∈ d3.classes := by
      rw [hd3, condAct_apply]
      exact mem_classes_if edgeLabelBoxAct boxAct_classes_mem d2 _ h2
    have h4 : "animated-label" ∈ d4.classes := by
      rw [hd4]
      exact mem_classes_if edgeTagAct edgeTagAct_classes_mem d3 _ h3
    rw [hx, condAct_apply]
    exact mem_classes_if fixArrowMarkerAct markerAct_classes_mem d4 _ h4
  have F3 : pE anc d = true → "animated-edge" ∈ x.classes := by
    intro hE
    have h4 : "animated-edge" ∈ d4.classes := by
      rw [hd4, hc4, if_pos hE]
      exact mem_addClass_self d3 _
    rw [hx, condAct_apply]
    exact mem_classes_if fixArrowMarkerAct markerAct_classes_mem d4 _ h4
  -- numeric facts through the tail of the pipeline
  have tail_getN : ∀ (k : String), ("refX" == k) = false →
      getN x k = getN d3 k := by
    intro k hk
    have h4 : getN d4 k = getN d3 k := by
      rw [hd4]
      exact getN_if edgeTagAct (fun y => getN_edgeTagAct y k) d3
    rw [hx, condAct_apply]
    rw [getN_if fixArrowMarkerAct
      (fun y => fixArrowMarkerAct_getN_other y k hk) d4, h4]
  have F4 : selsMatch edgeLabelRectsSelectors anc d = true →
      110 ≤ getND x "width" 0 ∧ 60 ≤ getND x "height" 0
      ∧ getN x "rx" = some 12 ∧ getN x "ry" = some 12 := by
    intro hB
    have hd3B : d3 = edgeLabelBoxAct d2 := by
      rw [hd3, condAct_apply, hc3, if_pos hB]
    refine ⟨?_, ?_, ?_, ?_⟩
    · rw [getND_eq_of_getN (tail_getN "width" (by decide)) 0, hd3B,
        edgeLabelBoxAct_width]
      exact le_max_right _ _
    · rw [getND_eq_of_getN (tail_getN "height" (by decide)) 0, hd3B,
        edgeLabelBoxAct_height]
      exact le_max_right _ _
    · rw [tail_getN "rx" (by decide), hd3B, edgeLabelBoxAct_rx]
    · rw [tail_getN "ry" (by decide), hd3B, edgeLabelBoxAct_ry]
  have F5 : selsMatch nodesSelectors anc d = true →
      (d.tag == "rect") = true →
      selsMatch edgeLabelRectsSelectors anc d = false →
      getN x "rx" = some 10 ∧ getN x "ry" = some 10 := by
    intro hN hrect hBf
    have hd1N : d1 = setN (setN (addClass d "animated-node") "rx" 10)
        "ry" 10 := by
      rw [hd1, condAct_apply, if_pos hN]
      exact enhanceNodesAct_rect d hrect
    have hrx1 : getN d1 "rx" = some 10 := by
      rw [hd1N, getN_setN_lookup, if_neg (by decide), getN_setN_lookup,
        if_pos (by decide)]
    have hry1 : getN d1 "ry" = some 10 := by
      rw [hd1N, getN_setN_lookup, if_pos (by decide)]
    have h2 : ∀ k, getN d2 k = getN d1 k := by
      intro k
      rw [hd2, condAct_apply]
      exact getN_if labelAct (fun y => getN_labelAct y k) d1
    have hd3eq : d3 = d2 := by
      rw [hd3, condAct_apply, hc3, if_neg (by simp [hBf])]
    constructor
    · rw [tail_getN "rx" (by decide), hd3eq, h2, hrx1]
    · rw [tail_getN "ry" (by decide), hd3eq, h2, hry1]
  have F6 : x.tag = d.tag := oxd.1
  -- second-run conditions transported to d
  have gc1 : selsMatch nodesSelectors anc x
      = selsMatch nodesSelectors anc d := selsMatch_stage _ hOkN anc oxd
  constructor
  · rw [condAct_apply, condAct_apply, condAct_apply, gc1]
    by_cases hN : selsMatch nodesSelectors anc d = true
    · rw [if_pos hN]
      -- the reapplied node action on x
      have hxn : enhanceNodesAct x
          = if (d.tag == "rect") = true
            then setN (setN x "rx" 10) "ry" 10 else x := by
        by_cases hrect : (d.tag == "rect") = true
        · rw [if_pos hrect]
          rw [enhanceNodesAct_rect x (by rw [F6]; exact hrect)]
          rw [addClass_id x _ (F1 hN)]
        · have hrf : (d.tag == "rect") = false := beq_false_of_not_true hrect
          rw [hrf]
          simp only [Bool.false_eq_true, if_false]
          rw [enhanceNodesAct_other x (by rw [F6]; exact hrf)]
          exact addClass_id x _ (F1 hN)
      rw [hxn]
      have oxn : ObsEq (if (d.tag == "rect") = true
          then setN (setN x "rx" 10) "ry" 10 else x) x :=
        obsEq_if _ (fun y => setN (setN y "rx" 10) "ry" 10)
          (fun y => obsEq_trans (obsEq_setN _ _ _) (obsEq_setN _ _ _)) x
      have gc2 : selsMatch (nodeLabelsSelectors ++ edgeLabelsSelectors) anc
          (if (d.tag == "rect") = true
           then setN (setN x "rx" 10) "ry" 10 else x)
          = selsMatch (nodeLabelsSelectors ++ edgeLabelsSelectors) anc d :=
        (selsMatch_stage _ hOkL anc oxn).trans
          (selsMatch_stage _ hOkL anc oxd)
      rw [gc2]
      -- the label pass is the identity on this element
      have hlab : (if selsMatch (nodeLabelsSelectors ++ edgeLabelsSelectors)
            anc d = true
          then labelAct (if (d.tag == "rect") = true
            then setN (setN x "rx" 10) "ry" 10 else x)
          else (if (d.tag == "rect") = true
            then setN (setN x "rx" 10) "ry" 10 else x))
          = (if (d.tag == "rect") = true
            then setN (setN x "rx" 10) "ry" 10 else x) := by
        by_cases hL : selsMatch (nodeLabelsSelectors ++ edgeLabelsSelectors)
            anc d = true
        · rw [if_pos hL]
          apply addClass_id
          split_ifs with hrect
          · rw [mem_classes_setN, mem_classes_setN]
            exact F2 hL
          · exact F2 hL
        · rw [if_neg hL]
      rw [hlab]
      have gc3 : selsMatch edgeLabelRectsSelectors anc
          (if (d.tag == "rect") = true
           then setN (setN x "rx" 10) "ry" 10 else x)
          = selsMatch edgeLabelRectsSelectors anc d :=
        (selsMatch_stage _ hOkB anc oxn).trans
          (selsMatch_stage _ hOkB anc oxd)
      rw [gc3]
      by_cases hB : selsMatch edgeLabelRectsSelectors anc d = true
      · rw [if_pos hB]
        obtain ⟨hw, hh, hrx, hry⟩ := F4 hB
        by_cases hrect : (d.tag == "rect") = true
        · rw [if_pos hrect]
          have hwx : 110 ≤ getND (setN (setN x "rx" 10) "ry" 10) "width" 0 := by
            rw [getND_setN_lookup, if_neg (by decide), getND_setN_lookup,
              if_neg (by decide)]
            exact hw
          have hhx : 60 ≤ getND (setN (setN x "rx" 10) "ry" 10) "height" 0 := by
            rw [getND_setN_lookup, if_neg (by decide), getND_setN_lookup,
              if_neg (by decide)]
            exact hh
          rw [edgeLabelBoxAct_no_resize _ hwx hhx]
          -- setN algebra: collapse the 10-writes under the 12-writes
          have hcomm : setN (setN (setN x "rx" 10) "ry" 10) "rx" 12
              = setN (setN (setN x "rx" 10) "rx" 12) "ry" 10 := by
            apply setN_comm
            · decide
            · right
              rw [getN_setN_lookup, if_pos (by decide)]
              exact Option.isSome_some
          rw [hcomm, setN_collapse]
          rw [setN_collapse]
          rw [setN_self_id x "rx" 12 hrx, setN_self_id x "ry" 12 hry]
        · have hrf : (d.tag == "rect") = false := beq_false_of_not_true hrect
          rw [hrf]
          simp only [Bool.false_eq_true, if_false]
          rw [edgeLabelBoxAct_no_resize _ hw hh]
          rw [setN_self_id x "rx" 12 hrx, setN_self_id x "ry" 12 hry]
      · rw [if_neg hB]
        have hBf : selsMatch edgeLabelRectsSelectors anc d = false := by
          cases hc : selsMatch edgeLabelRectsSelectors anc d with
          | true => exact absurd hc hB
          | false => rfl
        by_cases hrect : (d.tag == "rect") = true
        · rw [if_pos hrect]
          obtain ⟨hrx, hry⟩ := F5 hN hrect hBf
          rw [setN_self_id x "rx" 10 hrx, setN_self_id x "ry" 10 hry]
        · have hrf : (d.tag == "rect") = false := beq_false_of_not_true hrect
          rw [hrf]
          simp only [Bool.false_eq_true, if_false]
    · rw [if_neg hN]
      -- node pass skipped; label pass:
      have gc2 : selsMatch (nodeLabelsSelectors ++ edgeLabelsSelectors) anc x
          = selsMatch (nodeLabelsSelectors ++ edgeLabelsSelectors) anc d :=
        selsMatch_stage _ hOkL anc oxd
      rw [gc2]
      have hlab : (if selsMatch (nodeLabelsSelectors ++ edgeLabelsSelectors)
            anc d = true then labelAct x else x) = x := by
        by_cases hL : selsMatch (nodeLabelsSelectors ++ edgeLabelsSelectors)
            anc d = true
        · rw [if_pos hL]
          exact addClass_id x _ (F2 hL)
        · rw [if_neg hL]
      rw [hlab]
      have gc3 : selsMatch edgeLabelRectsSelectors anc x
          = selsMatch edgeLabelRectsSelectors anc d :=
        selsMatch_stage _ hOkB anc oxd
      rw [gc3]
      by_cases hB : selsMatch edgeLabelRectsSelectors anc d = true
      · rw [if_pos hB]
        obtain ⟨hw, hh, hrx, hry⟩ := F4 hB
        rw [edgeLabelBoxAct_no_resize _ hw hh]
        rw [setN_self_id x "rx" 12 hrx, setN_self_id x "ry" 12 hry]
      · rw [if_neg hB]
  · have gcE : pE anc x = pE anc d := hpE anc anc x d (obsEqL_refl anc) oxd
    rw [gcE]
    by_cases hE : pE anc d = true
    · rw [if_pos hE]
      exact addClass_id x _ (F3 hE)
    · rw [if_neg hE]

/-! ## Theorems: the particle layer is inert for every later traversal -/

theorem mapAllChildren_append (F : List NodeData → NodeData → NodeData)
    (anc : List NodeData) (es fs : List Elem) :
    mapAllChildren F anc (es ++ fs)
      = mapAllChildren F anc es ++ mapAllChildren F anc fs := by
  induction es with
  | nil => simp [mapAllChildren]
  | cons e es ih => simp [mapAllChildren, ih]

theorem mapAll_layer (F : List NodeData → NodeData → NodeData)
    (hF : ∀ anc, F anc particleLayerElem.data = particleLayerElem.data)
    (t : Elem) :
    mapAll F (createParticleLayer t) = createParticleLayer (mapAll F t) := by
  cases t with
  | mk d ch =>
      have hlf := hF [ d ]
      simp only [particleLayerElem, Elem.data] at hlf
      simp only [createParticleLayer, mapAll, mapAllChildren_append,
        particleLayerElem, mapAllChildren, mapAllElem, hlf]

theorem collectChildren_append (p : List NodeData → NodeData → Bool)
    (anc : List NodeData) (pos : List Nat) (es fs : List Elem) :
    ∀ (i : Nat), collectChildren p anc pos i (es ++ fs)
      = collectChildren p anc pos i es
        ++ collectChildren p anc pos (i + es.length) fs := by
  induction es with
  | nil => intro i; simp [collectChildren]
  | cons e es ih =>
      intro i
      have harith : i + 1 + es.length = i + (es.length + 1) := by omega
      show collectElem p anc (pos ++ [ i ]) e
          ++ collectChildren p anc pos (i + 1) (es ++ fs) = _
      rw [ih (i + 1), harith]
      simp [collectChildren, List.append_assoc]

theorem collect_layer (p : List NodeData → NodeData → Bool)
    (hp : ∀ anc, p anc particleLayerElem.data = false) (t : Elem) :
    collectPos p (createParticleLayer t) = collectPos p t := by
  cases t with
  | mk d ch =>
      have hlf := hp [ d ]
      simp only [particleLayerElem, Elem.data] at hlf
      simp only [createParticleLayer, collectPos, collectChildren_append,
        particleLayerElem, collectChildren, collectElem, hlf]
      simp

theorem layer_unmatched_nodes (anc : List NodeData) :
    selsMatch nodesSelectors anc particleLayerElem.data = false := by
  simp [selsMatch, selMatch, nodesSelectors, particleLayerElem, Elem.data]

theorem layer_unmatched_labels (anc : List NodeData) :
    selsMatch (nodeLabelsSelectors ++ edgeLabelsSelectors) anc
      particleLayerElem.data = false := by
  simp [selsMatch, selMatch, nodeLabelsSelectors, edgeLabelsSelectors,
    particleLayerElem, Elem.data]

theorem layer_unmatched_boxes (anc : List NodeData) :
    selsMatch edgeLabelRectsSelectors anc particleLayerElem.data = false := by
  simp [selsMatch, selMatch, edgeLabelRectsSelectors, particleLayerElem,
    Elem.data]

theorem layer_unmatched_markers (anc : List NodeData) :
    selsMatch [ Sel.tag "marker" ] anc particleLayerElem.data = false := by
  simp [selsMatch, selMatch, particleLayerElem, Elem.data]

theorem layer_unmatched_edges :
    ∀ sels ∈ edgesSelectors, ∀ (anc : List NodeData),
      selsMatch sels anc particleLayerElem.data = false := by
  intro sels hsels anc
  fin_cases hsels <;>
    simp [selsMatch, selMatch, particleLayerElem, Elem.data]

theorem layer_unmatched_fallback (anc : List NodeData) :
    edgeFallbackPred anc particleLayerElem.data = false := by
  simp [edgeFallbackPred, particleLayerElem, Elem.data]

theorem condAct_layer (P : EnhancePass)
    (h : ∀ anc, selsMatch P.sels anc particleLayerElem.data = false)
    (anc : List NodeData) :
    condAct P anc particleLayerElem.data = particleLayerElem.data := by
  unfold condAct
  rw [h anc]
  simp

/-! ## Theorems: stack blindness and branch stability -/

theorem stackBlind_condAct (P : EnhancePass) (hs : SelsOk P.sels) :
    StackBlind (condAct P) := by
  intro anc anc2 d hl
  unfold condAct
  rw [selsMatch_blind P.sels hs hl (obsEq_refl d)]

theorem stackBlind_pred (p : List NodeData → NodeData → Bool)
    (hp : PredBlind p) (f : NodeData → NodeData) :
    StackBlind (fun anc d => if p anc d then f d else d) := by
  intro anc anc2 d hl
  simp only [hp anc anc2 d d hl (obsEq_refl d)]

theorem selsOk_markers : SelsOk [ Sel.tag "marker" ] := by
  simp [SelsOk, SelOk, Sel.classList]

theorem selsOk_edges : ∀ sels ∈ edgesSelectors, SelsOk sels := by
  intro sels hsels
  fin_cases hsels <;> simp [SelsOk, SelOk, Sel.classList, addedClasses]

theorem find?Congr {α : Type} (l : List α) (p q : α → Bool)
    (h : ∀ a ∈ l, p a = q a) : l.find? p = l.find? q := by
  induction l with
  | nil => rfl
  | cons a l ih =>
      cases hq : q a with
      | true =>
          rw [List.find?_cons_of_pos _
              (by rw [h a (List.mem_cons_self a l)]; exact hq),
            List.find?_cons_of_pos _ hq]
      | false =>
          rw [List.find?_cons_of_neg _
              (by rw [h a (List.mem_cons_self a l)]; simp [hq]),
            List.find?_cons_of_neg _ (by simp [hq])]
          exact ih (fun b hb => h b (List.mem_cons_of_mem a hb))

/-! ## Theorems: edge classification is stable across the passes -/

theorem qsa_mapAll (sels : List Sel) (hs : SelsOk sels)
    (F : List NodeData → NodeData → NodeData)
    (hF : ∀ anc d, ObsEq (F anc d) d) (t : Elem) :
    qsaPos sels (mapAll F t) = qsaPos sels t := by
  unfold qsaPos
  exact collectPos_on_mapAll _ (predBlind_selsMatch sels hs) F hF t

theorem qsa_layer (sels : List Sel)
    (h : ∀ anc, selsMatch sels anc particleLayerElem.data = false) (t : Elem) :
    qsaPos sels (createParticleLayer t) = qsaPos sels t := by
  unfold qsaPos
  exact collect_layer _ h t

theorem findEdge_mapAll (F : List NodeData → NodeData → NodeData)
    (hF : ∀ anc d, ObsEq (F anc d) d) (t : Elem) :
    findEdgePathsPos (mapAll F t) = findEdgePathsPos t := by
  unfold findEdgePathsPos
  have hq : ∀ sels ∈ edgesSelectors,
      qsaPos sels (mapAll F t) = qsaPos sels t :=
    fun sels hs => qsa_mapAll sels (selsOk_edges sels hs) F hF t
  rw [find?Congr edgesSelectors _ _ (fun sels hs => by rw [hq sels hs])]
  cases hfind : edgesSelectors.find? (fun sels => !(qsaPos sels t).isEmpty)
      with
  | some sels =>
      simp only [hfind]
      exact hq sels (List.mem_of_find?_eq_some hfind)
  | none =>
      simp only [hfind]
      rw [fallback_filter_eq_collect, fallback_filter_eq_collect,
        collectPos_on_mapAll _ predBlind_edgeFallback F hF t]

theorem findEdge_layer (t : Elem) :
    findEdgePathsPos (createParticleLayer t) = findEdgePathsPos t := by
  unfold findEdgePathsPos
  have hq : ∀ sels ∈ edgesSelectors,
      qsaPos sels (createParticleLayer t) = qsaPos sels t :=
    fun sels hs => qsa_layer sels (layer_unmatched_edges sels hs) t
  rw [find?Congr edgesSelectors _ _ (fun sels hs => by rw [hq sels hs])]
  cases hfind : edgesSelectors.find? (fun sels => !(qsaPos sels t).isEmpty)
      with
  | some sels =>
      simp only [hfind]
      exact hq sels (List.mem_of_find?_eq_some hfind)
  | none =>
      simp only [hfind]
      rw [fallback_filter_eq_collect, fallback_filter_eq_collect,
        collect_layer _ layer_unmatched_fallback t]

theorem runPass_layer (P : EnhancePass) (hs : SelsOk P.sels)
    (ha : ActObs P.act)
    (h : ∀ anc, selsMatch P.sels anc particleLayerElem.data = false)
    (t : Elem) :
    runPass P (createParticleLayer t) = createParticleLayer (runPass P t) := by
  rw [runPass_eq_mapAll P hs ha, runPass_eq_mapAll P hs ha,
    mapAll_layer (condAct P) (condAct_layer P h) t]

theorem enhanceNodes_layer (t : Elem) :
    enhanceNodes (createParticleLayer t)
      = createParticleLayer (enhanceNodes t) :=
  runPass_layer _ selsOk_nodes actObs_enhanceNodesAct layer_unmatched_nodes t

theorem enhanceLabels_layer (t : Elem) :
    enhanceLabels (createParticleLayer t)
      = createParticleLayer (enhanceLabels t) :=
  runPass_layer _ selsOk_labels actObs_labelAct layer_unmatched_labels t

theorem enhanceEdgeLabelBoxes_layer (t : Elem) :
    enhanceEdgeLabelBoxes (createParticleLayer t)
      = createParticleLayer (enhanceEdgeLabelBoxes t) :=
  runPass_layer _ selsOk_boxes actObs_edgeLabelBoxAct layer_unmatched_boxes t

theorem fixArrowMarkers_layer (t : Elem) :
    fixArrowMarkers (createParticleLayer t)
      = createParticleLayer (fixArrowMarkers t) :=
  runPass_layer _ selsOk_markers actObs_fixArrowMarkerAct
    layer_unmatched_markers t

theorem enhanceEdges_layer (X : Elem) :
    enhanceEdges (createParticleLayer X)
      = (createParticleLayer ((enhanceEdges X).1), (enhanceEdges X).2) := by
  simp only [enhanceEdges]
  rw [findEdge_layer X]
  simp only [Prod.mk.injEq]
  refine ⟨?_, trivial⟩
  unfold findEdgePathsPos
  cases hfind : edgesSelectors.find? (fun sels => !(qsaPos sels X).isEmpty)
      with
  | some sels =>
      have hl := layer_unmatched_edges sels (List.mem_of_find?_eq_some hfind)
      simp only [hfind]
      rw [show qsaPos sels X = collectPos (selsMatch sels) X from rfl]
      rw [← collect_layer (selsMatch sels) hl X]
      rw [applyAt_collect_eq_mapAll]
      rw [mapAll_layer _ (fun anc => by
        have hl2 := hl anc
        simp only [hl2, Bool.false_eq_true, if_false]) X]
      rw [collect_layer (selsMatch sels) hl X]
      rw [applyAt_collect_eq_mapAll]
  | none =>
      simp only [hfind]
      rw [fallback_filter_eq_collect]
      rw [← collect_layer edgeFallbackPred layer_unmatched_fallback X]
      rw [applyAt_collect_eq_mapAll]
      rw [mapAll_layer _ (fun anc => by
        have hl2 := layer_unmatched_fallback anc
        simp only [hl2, Bool.false_eq_true, if_false]) X]
      rw [collect_layer edgeFallbackPred layer_unmatched_fallback X]
      rw [applyAt_collect_eq_mapAll]

theorem enhanceSVG_layer (B : Elem) :
    enhanceSVG (createParticleLayer B)
      = (createParticleLayer (enhanceSVG B).1, (enhanceSVG B).2) := by
  simp only [enhanceSVG, configureSVGRendering]
  rw [enhanceNodes_layer, enhanceLabels_layer, enhanceEdgeLabelBoxes_layer,
    enhanceEdges_layer]
  dsimp only
  rw [fixArrowMarkers_layer]

/-! ## Theorems: one classifier run as a single traversal -/

theorem enhanceEdges_fst (X : Elem) :
    (enhanceEdges X).1
      = applyAtPositions edgeTagAct X (findEdgePathsPos X) := rfl

theorem enhanceEdges_snd (X : Elem) :
    (enhanceEdges X).2 = findEdgePathsPos X := rfl

theorem enhanceSVG_eq (t : Elem) :
    enhanceSVG t
      = (createParticleLayer (fixArrowMarkers ((enhanceEdges
          (enhanceEdgeLabelBoxes (enhanceLabels (enhanceNodes t)))).1)),
         (enhanceEdges (enhanceEdgeLabelBoxes (enhanceLabels
           (enhanceNodes t)))).2) := rfl

theorem obs_tagPasses : ∀ (anc : List NodeData) (d : NodeData),
    ObsEq (tagPasses anc d) d := fun anc d =>
  obsEq_trans (obsEq_condAct (EnhancePass.mk edgeLabelRectsSelectors
      edgeLabelBoxAct) actObs_edgeLabelBoxAct anc _)
    (obsEq_trans (obsEq_condAct (EnhancePass.mk (nodeLabelsSelectors ++
        edgeLabelsSelectors) labelAct) actObs_labelAct anc _)
      (obsEq_condAct (EnhancePass.mk nodesSelectors enhanceNodesAct)
        actObs_enhanceNodesAct anc d))

theorem obs_epStep (pE : List NodeData → NodeData → Bool) :
    ∀ (anc : List NodeData) (d : NodeData),
      ObsEq (if pE anc (tagPasses anc d) then edgeTagAct (tagPasses anc d)
        else tagPasses anc d) d := fun anc d =>
  obsEq_trans (obsEq_if _ edgeTagAct actObs_edgeTagAct (tagPasses anc d))
    (obs_tagPasses anc d)

theorem obs_runStep (pE : List NodeData → NodeData → Bool) :
    ∀ (anc : List NodeData) (d : NodeData), ObsEq (runStep pE anc d) d :=
  fun anc d =>
    obsEq_trans (obsEq_condAct (EnhancePass.mk [ Sel.tag "marker" ]
        fixArrowMarkerAct) actObs_fixArrowMarkerAct anc _)
      (obs_epStep pE anc d)

theorem sb_tagPasses : StackBlind tagPasses := by
  intro anc anc2 d hl
  show condAct (EnhancePass.mk edgeLabelRectsSelectors edgeLabelBoxAct) anc
      (condAct (EnhancePass.mk (nodeLabelsSelectors ++ edgeLabelsSelectors)
          labelAct) anc
        (condAct (EnhancePass.mk nodesSelectors enhanceNodesAct) anc d))
    = tagPasses anc2 d
  rw [stackBlind_condAct (EnhancePass.mk nodesSelectors enhanceNodesAct)
    selsOk_nodes anc anc2 d hl]
  rw [stackBlind_condAct (EnhancePass.mk (nodeLabelsSelectors ++
    edgeLabelsSelectors) labelAct) selsOk_labels anc anc2 _ hl]
  rw [stackBlind_condAct (EnhancePass.mk edgeLabelRectsSelectors
    edgeLabelBoxAct) selsOk_boxes anc anc2 _ hl]
  rfl

theorem s4_eq_mapAll (t : Elem) :
    enhanceEdgeLabelBoxes (enhanceLabels (enhanceNodes t))
      = mapAll tagPasses t := by
  simp only [enhanceNodes, enhanceLabels, enhanceEdgeLabelBoxes]
  rw [runPass_eq_mapAll (EnhancePass.mk nodesSelectors enhanceNodesAct)
    selsOk_nodes actObs_enhanceNodesAct]
  rw [runPass_eq_mapAll (EnhancePass.mk (nodeLabelsSelectors ++
    edgeLabelsSelectors) labelAct) selsOk_labels actObs_labelAct]
  rw [runPass_eq_mapAll (EnhancePass.mk edgeLabelRectsSelectors
    edgeLabelBoxAct) selsOk_boxes actObs_edgeLabelBoxAct]
  rw [mapAll_comp (condAct (EnhancePass.mk nodesSelectors enhanceNodesAct))
    (condAct (EnhancePass.mk (nodeLabelsSelectors ++ edgeLabelsSelectors)
      labelAct))
    (fun anc d => obsEq_condAct (EnhancePass.mk nodesSelectors
      enhanceNodesAct) actObs_enhanceNodesAct anc d)
    (stackBlind_condAct (EnhancePass.mk (nodeLabelsSelectors ++
      edgeLabelsSelectors) labelAct) selsOk_labels)]
  rw [mapAll_comp (fun (anc : List NodeData) (d : NodeData) =>
      condAct (EnhancePass.mk (nodeLabelsSelectors ++ edgeLabelsSelectors)
        labelAct) anc
        (condAct (EnhancePass.mk nodesSelectors enhanceNodesAct) anc d))
    (condAct (EnhancePass.mk edgeLabelRectsSelectors edgeLabelBoxAct))
    (fun anc d => obsEq_trans (obsEq_condAct (EnhancePass.mk
        (nodeLabelsSelectors ++ edgeLabelsSelectors) labelAct)
        actObs_labelAct anc _)
      (obsEq_condAct (EnhancePass.mk nodesSelectors enhanceNodesAct)
        actObs_enhanceNodesAct anc d))
    (stackBlind_condAct (EnhancePass.mk edgeLabelRectsSelectors
      edgeLabelBoxAct) selsOk_boxes)]
  rfl

theorem body_eq_mapAll (t : Elem) (pE : List NodeData → NodeData → Bool)
    (hpE : PredBlind pE)
    (hfe : findEdgePathsPos (mapAll tagPasses t)
      = collectPos pE (mapAll tagPasses t)) :
    fixArrowMarkers ((enhanceEdges (enhanceEdgeLabelBoxes (enhanceLabels
        (enhanceNodes t)))).1)
      = mapAll (runStep pE) t := by
  rw [enhanceEdges_fst, s4_eq_mapAll t, hfe, applyAt_collect_eq_mapAll]
  simp only [fixArrowMarkers]
  rw [runPass_eq_mapAll (EnhancePass.mk [ Sel.tag "marker" ]
    fixArrowMarkerAct) selsOk_markers actObs_fixArrowMarkerAct]
  rw [mapAll_comp tagPasses
    (fun (anc : List NodeData) (d : NodeData) =>
      if pE anc d then edgeTagAct d else d)
    obs_tagPasses (stackBlind_pred pE hpE edgeTagAct)]
  rw [mapAll_comp (fun (anc : List NodeData) (d : NodeData) =>
      if pE anc (tagPasses anc d) then edgeTagAct (tagPasses anc d)
      else tagPasses anc d)
    (condAct (EnhancePass.mk [ Sel.tag "marker" ] fixArrowMarkerAct))
    (obs_epStep pE)
    (stackBlind_condAct (EnhancePass.mk [ Sel.tag "marker" ]
      fixArrowMarkerAct) selsOk_markers)]
  rfl

/-! ## Theorems: the second classifier run -/

theorem second_run_with_pred (t : Elem)
    (pE : List NodeData → NodeData → Bool) (hpE : PredBlind pE)
    (hbr : ∀ (F : List NodeData → NodeData → NodeData),
      (∀ (anc : List NodeData) (d : NodeData), ObsEq (F anc d) d) →
      findEdgePathsPos (mapAll F t) = collectPos pE (mapAll F t)) :
    enhanceSVG (enhanceSVG t).1
      = (createParticleLayer (fixArrowMarkers (enhanceSVG t).1),
         (enhanceSVG t).2) := by
  have hfe1 : findEdgePathsPos (mapAll tagPasses t)
      = collectPos pE (mapAll tagPasses t) := hbr tagPasses obs_tagPasses
  have hrun1 : enhanceSVG t
      = (createParticleLayer (mapAll (runStep pE) t),
         collectPos pE (mapAll tagPasses t)) := by
    rw [enhanceSVG_eq t, enhanceEdges_snd,
      body_eq_mapAll t pE hpE hfe1, s4_eq_mapAll t, hfe1]
  have hObsComb : ∀ (anc : List NodeData) (d : NodeData),
      ObsEq (tagPasses anc (runStep pE anc d)) d := fun anc d =>
    obsEq_trans (obs_tagPasses anc (runStep pE anc d)) (obs_runStep pE anc d)
  have hB : enhanceSVG (mapAll (runStep pE) t)
      = (createParticleLayer (mapAll (fun (anc : List NodeData)
            (d : NodeData) => condAct (EnhancePass.mk [ Sel.tag "marker" ]
              fixArrowMarkerAct) anc
            (if pE anc (tagPasses anc (runStep pE anc d))
             then edgeTagAct (tagPasses anc (runStep pE anc d))
             else tagPasses anc (runStep pE anc d))) t),
         collectPos pE (mapAll (fun (anc : List NodeData) (d : NodeData) =>
           tagPasses anc (runStep pE anc d)) t)) := by
    rw [enhanceSVG_eq (mapAll (runStep pE) t), enhanceEdges_snd,
      enhanceEdges_fst, s4_eq_mapAll (mapAll (runStep pE) t)]
    rw [mapAll_comp (runStep pE) tagPasses (obs_runStep pE) sb_tagPasses]
    have hfe2 : findEdgePathsPos (mapAll (fun (anc : List NodeData)
        (d : NodeData) => tagPasses anc (runStep pE anc d)) t)
        = collectPos pE (mapAll (fun (anc : List NodeData) (d : NodeData) =>
            tagPasses anc (runStep pE anc d)) t) :=
      hbr _ hObsComb
    rw [hfe2, applyAt_collect_eq_mapAll]
    simp only [fixArrowMarkers]
    rw [runPass_eq_mapAll (EnhancePass.mk [ Sel.tag "marker" ]
      fixArrowMarkerAct) selsOk_markers actObs_fixArrowMarkerAct]
    rw [mapAll_comp (fun (anc : List NodeData) (d : NodeData) =>
        tagPasses anc (runStep pE anc d))
      (fun (anc : List NodeData) (d : NodeData) =>
        if pE anc d then edgeTagAct d else d)
      hObsComb (stackBlind_pred pE hpE edgeTagAct)]
    rw [mapAll_comp (fun (anc : List NodeData) (d : NodeData) =>
        if pE anc (tagPasses anc (runStep pE anc d))
        then edgeTagAct (tagPasses anc (runStep pE anc d))
        else tagPasses anc (runStep pE anc d))
      (condAct (EnhancePass.mk [ Sel.tag "marker" ] fixArrowMarkerAct))
      (fun anc d => obsEq_trans (obsEq_if _ edgeTagAct actObs_edgeTagAct _)
        (hObsComb anc d))
      (stackBlind_condAct (EnhancePass.mk [ Sel.tag "marker" ]
        fixArrowMarkerAct) selsOk_markers)]
  rw [hrun1]
  dsimp only
  rw [enhanceSVG_layer (mapAll (runStep pE) t), hB,
    fixArrowMarkers_layer (mapAll (runStep pE) t)]
  dsimp only
  simp only [Prod.mk.injEq]
  refine ⟨?_, ?_⟩
  · simp only [fixArrowMarkers]
    rw [runPass_eq_mapAll (EnhancePass.mk [ Sel.tag "marker" ]
      fixArrowMarkerAct) selsOk_markers actObs_fixArrowMarkerAct]
    rw [mapAll_comp (runStep pE)
      (condAct (EnhancePass.mk [ Sel.tag "marker" ] fixArrowMarkerAct))
      (obs_runStep pE)
      (stackBlind_condAct (EnhancePass.mk [ Sel.tag "marker" ]
        fixArrowMarkerAct) selsOk_markers)]
    refine congrArg createParticleLayer (congrArg createParticleLayer ?_)
    refine mapAll_congr _ _ ?_ t
    intro anc d
    have h := run2_noop pE hpE anc d (runStep pE anc d) rfl
    have h1 : tagPasses anc (runStep pE anc d) = runStep pE anc d := h.1
    have h2 : (if pE anc (runStep pE anc d)
        then edgeTagAct (runStep pE anc d) else runStep pE anc d)
        = runStep pE anc d := h.2
    show condAct (EnhancePass.mk [ Sel.tag "marker" ] fixArrowMarkerAct) anc
        (if pE anc (tagPasses anc (runStep pE anc d))
         then edgeTagAct (tagPasses anc (runStep pE anc d))
         else tagPasses anc (runStep pE anc d))
      = condAct (EnhancePass.mk [ Sel.tag "marker" ] fixArrowMarkerAct) anc
          (runStep pE anc d)
    rw [h1, h2]
  · rw [collectPos_on_mapAll pE hpE (fun (anc : List NodeData)
        (d : NodeData) => tagPasses anc (runStep pE anc d)) hObsComb t,
      collectPos_on_mapAll pE hpE tagPasses obs_tagPasses t]

/-- C4 (amended): re-running the Structural Classifier on an
already-classified tree selects exactly the same edge set as the first run
(second component), and the whole second run equals appending one more
particle layer after applying the arrowhead-marker refX correction once
more to the already-classified tree (first component).  In particular the
role classes and geometry writes of the first run are preserved verbatim
and every pass totality holds; but the classifier is not idempotent: the
marker refX shift and the particle-layer append are repeated on every run
(see the counterexample). -/
theorem claim_C4_structural_classifier_rerun (t : Elem) :
    (enhanceSVG (enhanceSVG t).1).1
        = createParticleLayer (fixArrowMarkers (enhanceSVG t).1)
      ∧ (enhanceSVG (enhanceSVG t).1).2 = (enhanceSVG t).2 := by
  have hpair : enhanceSVG (enhanceSVG t).1
      = (createParticleLayer (fixArrowMarkers (enhanceSVG t).1),
         (enhanceSVG t).2) := by
    cases hfind : edgesSelectors.find?
        (fun sels => !(qsaPos sels t).isEmpty) with
    | some sels =>
        have hsels : sels ∈ edgesSelectors :=
          List.mem_of_find?_eq_some hfind
        refine second_run_with_pred t (selsMatch sels)
          (predBlind_selsMatch sels (selsOk_edges sels hsels)) ?_
        intro F hF
        unfold findEdgePathsPos
        rw [find?Congr edgesSelectors
          (fun sl => !(qsaPos sl (mapAll F t)).isEmpty)
          (fun sl => !(qsaPos sl t).isEmpty)
          (fun sl hs => congrArg (fun l => !(List.isEmpty l))
            (qsa_mapAll sl (selsOk_edges sl hs) F hF t))]
        simp only [hfind]
        rfl
    | none =>
        refine second_run_with_pred t edgeFallbackPred
          predBlind_edgeFallback ?_
        intro F hF
        unfold findEdgePathsPos
        rw [find?Congr edgesSelectors
          (fun sl => !(qsaPos sl (mapAll F t)).isEmpty)
          (fun sl => !(qsaPos sl t).isEmpty)
          (fun sl hs => congrArg (fun l => !(List.isEmpty l))
            (qsa_mapAll sl (selsOk_edges sl hs) F hF t))]
        simp only [hfind]
        exact fallback_filter_eq_collect (mapAll F t)
  have h1 := congrArg (fun (z : Elem × List (List Nat)) => z.1) hpair
  have h2 := congrArg (fun (z : Elem × List (List Nat)) => z.2) hpair
  exact ⟨h1, h2⟩

/-- C4 counterexample to literal idempotence: on a minimal classified
graphic the first run appends one particle layer and the second run appends
another, duplicating the decoration (and, by the amended theorem, also
re-applying the arrowhead refX shift). -/
theorem claim_C4_counterexample :
    particleLayerCount (enhanceSVG arrowTree).1 = 1
    ∧ particleLayerCount (enhanceSVG (enhanceSVG arrowTree).1).1 = 2
    ∧ (enhanceSVG arrowTree).2 = [ [ 2 ] ] := by
  refine ⟨by decide, by decide, by decide⟩

/-! ## Theorems: the participant-image scanner -/

theorem spanB_append (p : Char → Bool) :
    ∀ (xs ys : List Char), xs.all p = true →
      (∀ c, ys.head? = some c → p c = false) →
      spanB p (xs ++ ys) = (xs, ys)
  | [], ys, _, hy => by
      cases ys with
      | nil => rfl
      | cons c ys2 =>
          have hc := hy c rfl
          simp [spanB, hc]
  | x :: xs, ys, hall, hy => by
      simp only [List.all_cons, Bool.and_eq_true] at hall
      simp [spanB, hall.1, spanB_append p xs ys hall.2 hy]

theorem stripLit_append : ∀ (ps r : List Char),
    stripLit ps (ps ++ r) = some r
  | [], r => rfl
  | p :: ps, r => by
      simp [stripLit, stripLit_append ps r]

theorem stripLit_none_of_no_occurrence :
    ∀ (needle s tail : List Char),
      listIsPrefixOfB needle s = false →
      needle.all (fun c => !(c == '\n')) = true →
      (tail = [] ∨ tail.head? = some '\n') →
      stripLit needle (s ++ tail) = none := by
  intro needle s
  induction s generalizing needle with
  | nil =>
      intro tail hpre hnn htail
      cases needle with
      | nil => simp [listIsPrefixOfB] at hpre
      | cons n ns =>
          simp only [List.all_cons, Bool.and_eq_true] at hnn
          have hn : ¬ n = '\n' := by
            intro he
            rw [he] at hnn
            simp at hnn
          rcases htail with h | h
          · rw [h]
            rfl
          · cases tail with
            | nil => rfl
            | cons c r =>
                simp only [List.head?] at h
                have hc : c = '\n' := by
                  injection h
                subst hc
                simp only [List.nil_append, stripLit]
                rw [if_neg (by
                  simp only [beq_iff_eq]
                  exact fun he => hn he.symm)]
  | cons c s2 ih =>
      intro tail hpre hnn htail
      cases needle with
      | nil => simp [listIsPrefixOfB] at hpre
      | cons n ns =>
          simp only [listIsPrefixOfB, Bool.and_eq_false_iff] at hpre
          simp only [List.all_cons, Bool.and_eq_true] at hnn
          show stripLit (n :: ns) (c :: (s2 ++ tail)) = none
          rcases hpre with h | h
          · simp only [stripLit]
            rw [if_neg (by
              simp only [beq_eq_false_iff_ne, ne_eq] at h
              simp only [beq_iff_eq]
              intro he
              exact h he.symm)]
          · simp only [stripLit]
            by_cases hc : (c == n) = true
            · rw [if_pos hc]
              exact ih ns tail h hnn.2 htail
            · rw [if_neg hc]

theorem matchParticipant_none (cs : List Char)
    (h : stripLit "participant".toList cs = none) :
    matchParticipant cs = none := by
  unfold matchParticipant
  rw [h]

theorem scanAux_nil (f : Nat) (m : List (List Char × List Char)) :
    scanAux f [] m = ([], m) := by
  cases f <;> rfl

theorem scanAux_cons_match (f : Nat) (c : Char) (cs2 loc nm rest : List Char)
    (m : List (List Char × List Char))
    (h : matchParticipant (c :: cs2) = some (loc, nm, rest)) :
    scanAux (f + 1) (c :: cs2) m
      = ("participant ".toList ++ nm
          ++ (scanAux f rest (mapSet m (trimWs nm) loc)).1,
         (scanAux f rest (mapSet m (trimWs nm) loc)).2) := by
  simp only [scanAux, h]

theorem scanAux_cons_none (f : Nat) (c : Char) (cs2 : List Char)
    (m : List (List Char × List Char))
    (h : matchParticipant (c :: cs2) = none) :
    scanAux (f + 1) (c :: cs2) m
      = (c :: (scanAux f cs2 m).1, (scanAux f cs2 m).2) := by
  simp only [scanAux, h]

theorem matchParticipant_decl (loc nm rest : List Char)
    (hloc1 : loc.isEmpty = false)
    (hloc2 : loc.all (fun c => !(isWs c)) = true)
    (hnm1 : nm.isEmpty = false)
    (hnm2 : nm.all (fun c => !(c == '\n')) = true)
    (hnmh : ∀ c, nm.head? = some c → isWs c = false)
    (hrest : rest = [] ∨ rest.head? = some '\n') :
    matchParticipant ("participant img:".toList ++ loc ++ ' ' :: nm ++ rest)
      = some (loc, nm, rest) := by
  have hsplit : "participant img:".toList
      = "participant".toList ++ ' ' :: "img:".toList := by decide
  have hspan1 : spanB isWs
      (' ' :: ("img:".toList ++ (loc ++ ' ' :: (nm ++ rest))))
      = ([ ' ' ], "img:".toList ++ (loc ++ ' ' :: (nm ++ rest))) := by
    have h := spanB_append isWs [ ' ' ]
      ("img:".toList ++ (loc ++ ' ' :: (nm ++ rest))) (by decide)
      (fun c hc => by
        have h3 : "img:".toList = 'i' :: "mg:".toList := by decide
        rw [h3, List.cons_append, List.head?] at hc
        have hci : 'i' = c := by injection hc
        subst hci
        decide)
    simpa using h
  have hspan2 : spanB (fun c => !(isWs c)) (loc ++ ' ' :: (nm ++ rest))
      = (loc, ' ' :: (nm ++ rest)) :=
    spanB_append (fun c => !(isWs c)) loc (' ' :: (nm ++ rest)) hloc2
      (fun c hc => by
        rw [List.head?] at hc
        have hcs : ' ' = c := by injection hc
        subst hcs
        decide)
  have hspan3 : spanB isWs (' ' :: (nm ++ rest))
      = ([ ' ' ], nm ++ rest) := by
    have h := spanB_append isWs [ ' ' ] (nm ++ rest) (by decide)
      (fun c hc => by
        cases nm with
        | nil => simp at hnm1
        | cons n nm2 =>
            rw [List.cons_append, List.head?] at hc
            have hcn : n = c := by injection hc
            subst hcn
            simp [hnmh n rfl])
    simpa using h
  have hrev : ([ ' ' ] : List Char).reverse = [ ' ' ] := rfl
  have hgbs : giveBackScan [ ' ' ] (nm ++ rest) = some (nm, rest) := by
    cases nm with
    | nil => simp at hnm1
    | cons n nm2 =>
        have hnw : isWs n = false := hnmh n rfl
        have hnn : (n == '\n') = false := by
          cases hb : (n == '\n') with
          | false => rfl
          | true =>
              have he : n = '\n' := eq_of_beq hb
              rw [he] at hnw
              simp [isWs] at hnw
        have hna : nameAt ((n :: nm2) ++ rest)
            = some (n :: nm2, rest) := by
          simp only [List.cons_append, nameAt, hnn, Bool.false_eq_true,
            if_false]
          have h := spanB_append (fun c2 => !(c2 == '\n')) (n :: nm2) rest
            hnm2
            (fun c hc => by
              rcases hrest with h2 | h2
              · rw [h2] at hc
                simp at hc
              · rw [hc] at h2
                have hce : c = '\n' := by injection h2
                subst hce
                decide)
          simp only [List.cons_append] at h
          rw [h]
        simp only [giveBackScan, List.cons_append] at hna ⊢
        rw [hna]
  unfold matchParticipant
  rw [hsplit]
  simp only [List.append_assoc, List.cons_append]
  simp only [stripLit_append, hspan1, hspan2, hspan3, hloc1, hrev, hgbs,
    List.isEmpty_cons, Bool.false_eq_true, if_false]

theorem scan_other (s : List Char) :
    ∀ (f : Nat) (tail : List Char) (m : List (List Char × List Char)),
      listContainsSub s "participant".toList = false →
      (tail = [] ∨ tail.head? = some '\n') →
      scanAux (s.length + f) (s ++ tail) m
        = (s ++ (scanAux f tail m).1, (scanAux f tail m).2) := by
  induction s with
  | nil =>
      intro f tail m _ _
      simp only [List.length_nil, Nat.zero_add, List.nil_append]
  | cons c s2 ih =>
      intro f tail m hcon htail
      have hcon2 : listIsPrefixOfB "participant".toList (c :: s2) = false
          ∧ listContainsSub s2 "participant".toList = false := by
        simp only [listContainsSub, Bool.or_eq_false_iff] at hcon
        exact hcon
      have hmp : matchParticipant ((c :: s2) ++ tail) = none :=
        matchParticipant_none _
          (stripLit_none_of_no_occurrence _ _ _ hcon2.1 (by decide) htail)
      rw [List.cons_append] at hmp
      have harith : (c :: s2).length + f = (s2.length + f) + 1 := by
        simp only [List.length_cons]
        omega
      rw [harith, List.cons_append,
        scanAux_cons_none _ c (s2 ++ tail) m hmp,
        ih f tail m hcon2.2 htail]
      simp [List.cons_append]

theorem scan_tail : ∀ (ls : List SrcLine) (m : List (List Char × List Char))
    (f : Nat), (srcText ls).length ≤ f → (∀ l ∈ ls, lineOk l = true) →
    scanAux f (srcText ls) m = (cleanText ls, declFold ls m) := by
  intro ls
  induction ls with
  | nil =>
      intro m f _ _
      simp [srcText, cleanText, declFold, scanAux_nil]
  | cons l ls2 ih =>
      intro m f hf hok
      have hokl : lineOk l = true := hok l (List.mem_cons_self l ls2)
      have hokr : ∀ l2 ∈ ls2, lineOk l2 = true :=
        fun l2 h => hok l2 (List.mem_cons_of_mem l h)
      have hPL : "participant img:".toList
          = 'p' :: "articipant img:".toList := by decide
      have hPP : "participant".toList = 'p' :: "articipant".toList := by
        decide
      cases l with
      | decl loc nm =>
          cases nm with
          | nil =>
              simp [lineOk] at hokl
          | cons n nm2 =>
              simp only [lineOk, Bool.and_eq_true, Bool.not_eq_true'] at hokl
              obtain ⟨⟨⟨⟨h1, h2⟩, h3⟩, h4⟩, h5⟩ := hokl
              have hnmh : ∀ c, (n :: nm2).head? = some c →
                  isWs c = false := by
                intro c hc
                rw [List.head?] at hc
                have hnc : n = c := by injection hc
                subst hnc
                simpa using h5
              cases ls2 with
              | nil =>
                  have hm := matchParticipant_decl loc (n :: nm2) [] h1 h2
                    h3 h4 hnmh (Or.inl rfl)
                  rw [List.append_nil] at hm
                  simp only [srcText, lineText, hPL, List.cons_append]
                    at hm hf ⊢
                  simp only [List.length_cons] at hf
                  cases f with
                  | zero => omega
                  | succ f2 =>
                      rw [scanAux_cons_match f2 'p' _ loc (n :: nm2) []
                        m hm]
                      simp [scanAux_nil, cleanText, cleanLine, declFold]
              | cons l2 ls3 =>
                  have hm := matchParticipant_decl loc (n :: nm2)
                    ('\n' :: srcText (l2 :: ls3)) h1 h2 h3 h4 hnmh
                    (Or.inr rfl)
                  simp only [srcText, lineText, hPL, List.cons_append]
                    at hm hf ⊢
                  simp only [List.length_cons, List.length_append] at hf
                  cases f with
                  | zero => omega
                  | succ f2 =>
                      rw [scanAux_cons_match f2 'p' _ loc (n :: nm2)
                        ('\n' :: srcText (l2 :: ls3)) m hm]
                      cases f2 with
                      | zero => omega
                      | succ f3 =>
                          have hmn : matchParticipant
                              ('\n' :: srcText (l2 :: ls3)) = none := by
                            apply matchParticipant_none
                            rw [hPP]
                            simp [stripLit]
                          rw [scanAux_cons_none f3 '\n'
                            (srcText (l2 :: ls3)) _ hmn]
                          rw [ih _ f3 (by omega) hokr]
                          simp [cleanText, cleanLine, declFold,
                            List.cons_append]
      | other s =>
          have hcon : listContainsSub s "participant".toList = false := by
            simpa [lineOk] using hokl
          cases ls2 with
          | nil =>
              simp only [srcText, lineText] at hf ⊢
              obtain ⟨g, rfl⟩ : ∃ g, f = s.length + g :=
                ⟨f - s.length, by omega⟩
              have h := scan_other s g [] m hcon (Or.inl rfl)
              simp only [List.append_nil, scanAux_nil] at h
              rw [h]
              simp [cleanText, cleanLine, declFold]
          | cons l2 ls3 =>
              simp only [srcText, lineText] at hf ⊢
              simp only [List.length_append, List.length_cons] at hf
              obtain ⟨g, rfl⟩ : ∃ g, f = s.length + g :=
                ⟨f - s.length, by omega⟩
              have h := scan_other s g ('\n' :: srcText (l2 :: ls3)) m hcon
                (Or.inr rfl)
              rw [h]
              cases g with
              | zero => omega
              | succ g2 =>
                  have hmn : matchParticipant
                      ('\n' :: srcText (l2 :: ls3)) = none := by
                    apply matchParticipant_none
                    rw [hPP]
                    simp [stripLit]
                  rw [scanAux_cons_none g2 '\n' (srcText (l2 :: ls3)) m hmn]
                  rw [ih _ g2 (by omega) hokr]
                  simp [cleanText, cleanLine, declFold, List.cons_append]

/-- C7: the preprocessing core rewrites every well-formed
`participant img:<locator> <displayName>` declaration to
`participant <displayName>`, recording the trimmed name to locator pair in
insertion order, and leaves all other lines unchanged; on the scenario
source the cleaned chart and the image mapping are exactly as specified
(the cleaned chart contains `participant A` and no `img:` token); and on a
representative laid-out graphic the actor titled A receives exactly one
attached logo image while actor B receives none. -/
theorem claim_C7_participant_images :
    (∀ (ls : List SrcLine), (∀ l ∈ ls, lineOk l = true) →
      preprocessChart (srcText ls) = (cleanText ls, declFold ls []))
    ∧ preprocessChart scenarioChart.toList
        = ("participant A\nparticipant B\nA->>B: hi".toList,
           [ ("A".toList, "https://x/a.png".toList) ])
    ∧ listContainsSub (preprocessChart scenarioChart.toList).1
        "participant A".toList = true
    ∧ listContainsSub (preprocessChart scenarioChart.toList).1
        "img:".toList = false
    ∧ (elemAt (addActorImages scenarioSvg
        (preprocessChart scenarioChart.toList).2) [ 0 ]).map imageCount
        = some 1
    ∧ (elemAt (addActorImages scenarioSvg
        (preprocessChart scenarioChart.toList).2) [ 1 ]).map imageCount
        = some 0 := by
  refine ⟨?_, by decide, by decide, by decide, by decide, by decide⟩
  intro ls h
  exact scan_tail ls [] (srcText ls).length le_rfl h

/-- Witness for C7: a concrete two-line source through the general part. -/
theorem claim_C7_participant_images_witness :
    preprocessChart (srcText
        [ SrcLine.decl "u/v.png".toList "Alice".toList,
          SrcLine.other "Alice->>Bob: hi".toList ])
      = ("participant Alice\nAlice->>Bob: hi".toList,
         [ ("Alice".toList, "u/v.png".toList) ]) := by
  have h := claim_C7_participant_images.1
    [ SrcLine.decl "u/v.png".toList "Alice".toList,
      SrcLine.other "Alice->>Bob: hi".toList ] (by decide)
  rw [h]
  decide
